import Mathlib

/-!
Verification of the insider-threat analysis core
(`backend/services/insider_threat/graph_analyzer.py`).

The Python source is shallowly embedded below:

* calendar days are embedded as `Int` (day numbers); `(x - y).days` becomes
  integer subtraction and `abs(...)` becomes `Int.natAbs`;
* pandas rows become Lean structures (`LogonRecord`, `DeviceRecord`,
  `HttpRecord`); a dataframe becomes a `List` of rows; filtering a frame by
  day becomes `List.filter`;
* Python `set` unions used to collect the distinct entities of a day become
  `List.dedup` of the concatenated columns (same membership and cardinality);
* the `self.node_id` / `self.node_type` dicts are embedded as the list of
  assignment events `NodeEntry` produced by the three index-assignment
  loops; dict reads use last-write-wins lookup (`dictLookup`) and dict
  iteration uses the distinct keys with their final values (`dictItems`);
* torch tensors `x`, `y`, `train_mask` become total functions from node
  index, written by the same loops as the source; scores become `Nat → ℚ`
  with `torch.clamp(s, 0.0, 1.0)` embedded as `clamp01`;
* Python truthiness of strings (`if user_name and ...`) is embedded as
  `name ≠ ""` together with the `Option` match for `None`.
-/

inductive NodeType where
  | user : NodeType
  | pc : NodeType
  | domain : NodeType
deriving DecidableEq, Repr

structure LogonRecord where
  user : String
  pc : String
  day : Int
  logon : Int
  logoff : Int
deriving DecidableEq, Repr

structure DeviceRecord where
  user : String
  pc : String
  day : Int
  connect : Int
  disconnect : Int
deriving DecidableEq, Repr

structure HttpRecord where
  user : String
  domain : String
  day : Int
  request_count : Int
deriving DecidableEq, Repr

/-- One index-assignment event `self.node_id[name] = idx; self.node_type[idx] = ty`
performed by `build_graph`. -/
structure NodeEntry where
  name : String
  idx : Nat
  ty : NodeType
deriving DecidableEq, Repr

/-- One edge appended by `build_graph`: endpoints are node indices and
`feat` is the five-channel feature row. -/
structure GEdge where
  src : Nat
  tgt : Nat
  feat : List Int
deriving DecidableEq, Repr

/-- The value stored in `self.data` by `build_graph` (the PyTorch Geometric
`Data` object): node count, the node-assignment events, the edge list, and
the `x`, `y`, `train_mask` tensors as functions from node index. -/
structure BuiltGraph where
  numNodes : Nat
  entries : List NodeEntry
  edges : List GEdge
  x : Nat → Nat
  y : Nat → Nat
  trainMask : Nat → Bool

instance : Inhabited BuiltGraph :=
  ⟨⟨0, [], [], fun _ => 0, fun _ => 0, fun _ => false⟩⟩

/-! ## Day selection (`run_analysis`, lines 563-596)

`run_analysis` picks the analysis day from `all_days` and
`self.malicious_days`.  `candidate_days = sorted(all_days & malicious_days)`
and `candidate_days[0]` select the minimum of the intersection;
`min(all_days_list, key=lambda x: abs((x - target_date).days))` is Python's
first-minimum fold over the ascending-sorted day list. -/

/-- Absolute day distance `abs((x - t).days)`. -/
def dayDist (t x : Int) : Nat := (x - t).natAbs

/-- One comparison step of Python's `min(..., key=...)`: keep the current
best unless the new element's key is strictly smaller. -/
def closerStep (t : Int) (b y : Int) : Int :=
  if dayDist t y < dayDist t b then y else b

/-- Python's `min(l, key=lambda x: abs((x - t).days))` on a nonempty list:
fold `closerStep` over the tail starting from the head. -/
def closestFirst (t : Int) : List Int → Option Int
  | [] => none
  | x :: xs => some (xs.foldl (closerStep t) x)

/-- Day-selection logic of `run_analysis` (lines 563-596): minimum of
`all_days ∩ malicious_days` when nonempty, else the available day closest to
the earliest malicious day, else `max(all_days)`; `none` when no day exists. -/
def selectDay (allDays maliciousDays : Finset Int) : Option Int :=
  if hm : maliciousDays.Nonempty then
    if hi : (allDays ∩ maliciousDays).Nonempty then
      some ((allDays ∩ maliciousDays).min' hi)
    else if allDays.Nonempty then
      closestFirst (maliciousDays.min' hm) (allDays.sort (· ≤ ·))
    else none
  else if ha : allDays.Nonempty then some (allDays.max' ha) else none

/-! ## Graph construction (`build_graph`, lines 271-369) -/

/-- Rows of the logon frame for the selected day
(`logon[logon["day"] == selected_day]`). -/
def logonOn (logon : List LogonRecord) (day : Int) : List LogonRecord :=
  logon.filter (fun r => r.day == day)

/-- Rows of the device frame for the selected day. -/
def deviceOn (device : List DeviceRecord) (day : Int) : List DeviceRecord :=
  device.filter (fun r => r.day == day)

/-- Rows of the http frame for the selected day. -/
def httpOn (http : List HttpRecord) (day : Int) : List HttpRecord :=
  http.filter (fun r => r.day == day)

/-- Distinct users of the day:
`set(logon_day["user"]) | set(device_day["user"]) | set(http_day["user"])`. -/
def dayUsers (logon : List LogonRecord) (device : List DeviceRecord)
    (http : List HttpRecord) (day : Int) : List String :=
  ((logonOn logon day).map (·.user) ++ (deviceOn device day).map (·.user) ++
    (httpOn http day).map (·.user)).dedup

/-- Distinct PCs of the day: `set(logon_day["pc"]) | set(device_day["pc"])`. -/
def dayPcs (logon : List LogonRecord) (device : List DeviceRecord)
    (day : Int) : List String :=
  ((logonOn logon day).map (·.pc) ++ (deviceOn device day).map (·.pc)).dedup

/-- Distinct domains of the day: `set(http_day["domain"])`. -/
def dayDomains (http : List HttpRecord) (day : Int) : List String :=
  ((httpOn http day).map (·.domain)).dedup

/-- One of the three index-assignment loops of `build_graph`
(`for u in users: self.node_id[u] = idx; self.node_type[idx] = ty; idx += 1`):
appends one `NodeEntry` per name and advances the counter. -/
def addNodes (ty : NodeType) (names : List String)
    (acc : List NodeEntry × Nat) : List NodeEntry × Nat :=
  names.foldl (fun p n => (p.1 ++ [⟨n, p.2, ty⟩], p.2 + 1)) acc

/-- The three assignment loops run in source order (users, then PCs, then
domains) starting from `idx = 0`; the second component is the final counter
`num_nodes`. -/
def assignNodes (users pcs domains : List String) : List NodeEntry × Nat :=
  addNodes .domain domains (addNodes .pc pcs (addNodes .user users ([], 0)))

/-- Read of the `self.node_id` dict: the last assignment for a key wins. -/
def dictLookup (entries : List NodeEntry) (n : String) : Option NodeEntry :=
  entries.reverse.find? (fun e => e.name == n)

/-- Keys of the `self.node_id` dict (each distinct name once). -/
def dictKeys (entries : List NodeEntry) : List String :=
  (entries.map (·.name)).dedup

/-- Items of the `self.node_id` dict: every distinct key with the entry that
last wrote it (hence the key's final index). -/
def dictItems (entries : List NodeEntry) : List NodeEntry :=
  (dictKeys entries).filterMap (fun n => dictLookup entries n)

/-- Read of the `self.node_type` dict: the type recorded for a node index. -/
def nodeTypeOf (entries : List NodeEntry) (i : Nat) : Option NodeType :=
  (entries.find? (fun e => e.idx == i)).map (·.ty)

/-- Edge lists of `build_graph` (lines 318-334): for each day row whose two
referenced entities are keys of `node_id`, one edge from the user's index to
the PC's (or domain's) index with the record-type feature channels set. -/
def edgesOf (entries : List NodeEntry) (logonDay : List LogonRecord)
    (deviceDay : List DeviceRecord) (httpDay : List HttpRecord) : List GEdge :=
  (logonDay.filterMap (fun r =>
    match dictLookup entries r.user, dictLookup entries r.pc with
    | some eu, some ep => some ⟨eu.idx, ep.idx, [r.logon, r.logoff, 0, 0, 0]⟩
    | _, _ => none)) ++
  (deviceDay.filterMap (fun r =>
    match dictLookup entries r.user, dictLookup entries r.pc with
    | some eu, some ep => some ⟨eu.idx, ep.idx, [0, 0, r.connect, r.disconnect, 0]⟩
    | _, _ => none)) ++
  (httpDay.filterMap (fun r =>
    match dictLookup entries r.user, dictLookup entries r.domain with
    | some eu, some ed => some ⟨eu.idx, ed.idx, [0, 0, 0, 0, r.request_count]⟩
    | _, _ => none))

/-- Pointwise increment of a tensor cell (`x[i] += 1`). -/
def bumpAt (x : Nat → Nat) (i : Nat) : Nat → Nat :=
  fun j => if j = i then x i + 1 else x j

/-- Degree features (lines 344-347): `for s, t in edge_index.t(): x[s] += 1;
x[t] += 1` starting from zeros. -/
def degOf (edges : List GEdge) : Nat → Nat :=
  edges.foldl (fun x e => bumpAt (bumpAt x e.src) e.tgt) (fun _ => 0)

/-- Pointwise write of a label cell (`y[i] = v`). -/
def setIdx (y : Nat → Nat) (i : Nat) (v : Nat) : Nat → Nat :=
  fun j => if j = i then v else y j

/-- Label loop (lines 350-355): `y` starts at zeros and
`for name, idx in self.node_id.items(): if name in self.malicious_users:
y[idx] = 1` — note no node-type check. -/
def yOf (entries : List NodeEntry) (malicious : List String) : Nat → Nat :=
  (dictItems entries).foldl
    (fun y e => if malicious.contains e.name then setIdx y e.idx 1 else y)
    (fun _ => 0)

/-- Pointwise write of a mask cell. -/
def setMask (m : Nat → Bool) (i : Nat) : Nat → Bool :=
  fun j => if j = i then true else m j

/-- Mask loop (lines 351-357): `train_mask` starts at falses and
`for name, idx in self.node_id.items(): if self.node_type[idx] == "user":
train_mask[idx] = True`. -/
def maskOf (entries : List NodeEntry) : Nat → Bool :=
  (dictItems entries).foldl
    (fun m e => if e.ty = NodeType.user then setMask m e.idx else m)
    (fun _ => false)

/-- The whole of `build_graph`: filter the three frames to the day, assign
node indices by type group, build the edge list, and return `None` when no
edge was produced, else the assembled `Data` object. -/
def buildGraph (logon : List LogonRecord) (device : List DeviceRecord)
    (http : List HttpRecord) (day : Int) (malicious : List String) :
    Option BuiltGraph :=
  let users := dayUsers logon device http day
  let pcs := dayPcs logon device day
  let domains := dayDomains http day
  let an := assignNodes users pcs domains
  let edges := edgesOf an.1 (logonOn logon day) (deviceOn device day)
    (httpOn http day)
  if edges.isEmpty then none
  else some ⟨an.2, an.1, edges, degOf edges, yOf an.1 malicious, maskOf an.1⟩

/-- The instance state touched by `build_graph`: `self.data` plus the
`self.node_id` / `self.node_type` dicts (as their assignment events). -/
structure DetectorState where
  data : Option BuiltGraph
  nodeEntries : List NodeEntry

/-- State-passing version of `build_graph`: `self.node_id` and
`self.node_type` are overwritten before edges are collected, while
`self.data` is only assigned after the empty-edge check (lines 290-366). -/
def buildGraphS (st : DetectorState) (logon : List LogonRecord)
    (device : List DeviceRecord) (http : List HttpRecord) (day : Int)
    (malicious : List String) : DetectorState × Option BuiltGraph :=
  let users := dayUsers logon device http day
  let pcs := dayPcs logon device day
  let domains := dayDomains http day
  let an := assignNodes users pcs domains
  let edges := edgesOf an.1 (logonOn logon day) (deviceOn device day)
    (httpOn http day)
  if edges.isEmpty then ({ st with nodeEntries := an.1 }, none)
  else
    let g : BuiltGraph :=
      ⟨an.2, an.1, edges, degOf edges, yOf an.1 malicious, maskOf an.1⟩
    ({ data := some g, nodeEntries := an.1 }, some g)

/-- Run-level check of `run_analysis` (lines 602-604): a `None` graph raises
`RuntimeError("Failed to build graph")`, which the surrounding handler turns
into the error result; a built graph lets the run continue. -/
def checkBuild (r : Option BuiltGraph) : Except String BuiltGraph :=
  match r with
  | none => Except.error "Failed to build graph"
  | some g => Except.ok g

/-! ## Training-loop label fallback (`train_model`, lines 402-429)

Each epoch inspects `self.data.y[self.data.train_mask]`; when no masked
entry equals 1, the `min(3, len(user_indices))` masked nodes of highest
degree get label 1.  `torch.topk` breaks ties between equal degrees in an
implementation-defined order; it is embedded as a stable descending sort by
degree, and the proved properties do not depend on the tie order. -/

/-- Indices of the `train_mask`-true nodes (`torch.where(train_mask)[0]`,
ascending). -/
def trainIndices (n : Nat) (mask : Nat → Bool) : List Nat :=
  (List.range n).filter (fun i => mask i)

/-- Count of positive masked labels
(`(self.data.y[self.data.train_mask] == 1).sum()`). -/
def posCount (n : Nat) (mask : Nat → Bool) (y : Nat → Nat) : Nat :=
  (trainIndices n mask).countP (fun i => y i == 1)

/-- The `min(3, len(user_indices))` masked indices of highest degree
(`user_indices[torch.topk(degrees, min(3, len(user_indices))).indices]`). -/
def selectTopDeg (n : Nat) (mask : Nat → Bool) (deg : Nat → Nat) : List Nat :=
  let ui := trainIndices n mask
  ((ui.mergeSort (fun a b => deg b ≤ deg a)).take (min 3 ui.length))

/-- Label mutation of one training epoch: when the masked positive count is
zero and there is at least one masked node, set the labels of the
highest-degree masked nodes to 1 (`self.data.y[top_indices] = 1`);
otherwise leave the labels unchanged. -/
def epochLabelStep (n : Nat) (mask : Nat → Bool) (deg : Nat → Nat)
    (y : Nat → Nat) : Nat → Nat :=
  if posCount n mask y = 0 then
    if 0 < (trainIndices n mask).length then
      (selectTopDeg n mask deg).foldl (fun y' i => setIdx y' i 1) y
    else y
  else y

/-! ## Prediction (`get_predictions`, lines 437-492) -/

/-- Entry of the ranked output list. -/
structure PredEntry where
  user : String
  score : ℚ
  isKnownMalicious : Bool
deriving DecidableEq, Repr

/-- Reverse lookup of a node index's key (lines 449-453 and 466-471):
`for name, idx in self.node_id.items(): if idx == i: user_name = name; break`. -/
def nameOfIdx (entries : List NodeEntry) (i : Nat) : Option String :=
  ((dictItems entries).find? (fun e => e.idx == i)).map (·.name)

/-- Clamp to the unit interval (`torch.clamp(s, 0.0, 1.0)`). -/
def clamp01 (q : ℚ) : ℚ := min (max q 0) 1

/-- Pointwise write of a score cell. -/
def setIdxQ (s : Nat → ℚ) (i : Nat) (v : ℚ) : Nat → ℚ :=
  fun j => if j = i then v else s j

/-- Condition under which node `i`'s score is boosted (lines 447-457): the
node's type is `user`, the reverse lookup finds its key, the key is truthy
(nonempty), and the key is in `self.malicious_users`. -/
def boostCond (entries : List NodeEntry) (malicious : List String)
    (i : Nat) : Bool :=
  (nodeTypeOf entries i == some NodeType.user) &&
    (match nameOfIdx entries i with
     | some name => (name != "") && malicious.contains name
     | none => false)

/-- Body of the boost loop for one node index: when the condition holds,
`scores[i] = torch.clamp(scores[i] + 0.8, 0.0, 1.0)`. -/
def boostStep (cond : Nat → Bool) (sc : Nat → ℚ) (i : Nat) : Nat → ℚ :=
  if cond i then setIdxQ sc i (clamp01 (sc i + 4/5)) else sc

/-- Boost loop (lines 446-457): `boostStep` over each node index in range. -/
def boostScores (g : BuiltGraph) (malicious : List String)
    (s : Nat → ℚ) : Nat → ℚ :=
  (List.range g.numNodes).foldl (boostStep (boostCond g.entries malicious)) s

/-- The `top_users` list before sorting (lines 463-480): one entry per node
index of type `user` whose key the reverse lookup finds and is truthy. -/
def userEntries (g : BuiltGraph) (malicious : List String)
    (scores : Nat → ℚ) : List PredEntry :=
  (List.range g.numNodes).filterMap (fun i =>
    if nodeTypeOf g.entries i == some NodeType.user then
      match nameOfIdx g.entries i with
      | some name =>
          if name != "" then
            some ⟨name, scores i, malicious.contains name⟩
          else none
      | none => none
    else none)

/-- Default of the `top_k` parameter of `get_predictions` (line 437). -/
def getPredictionsDefaultTopK : Nat := 50

/-- Descending-score comparison used by
`top_users.sort(key=lambda x: x["score"], reverse=True)`. -/
def predLe (a b : PredEntry) : Bool := b.score ≤ a.score

/-- The whole of `get_predictions`: boost the scores, build the user entry
list, sort it descending by score, and truncate to `top_k` (default 50). -/
def getPredictions (g : BuiltGraph) (malicious : List String) (s : Nat → ℚ)
    (topK : Nat := getPredictionsDefaultTopK) : List PredEntry :=
  ((userEntries g malicious (boostScores g malicious s)).mergeSort predLe).take
    topK

/-! ## Visualization export (`get_graph_data_for_visualization`,
lines 494-541) -/

/-- Node of the visualization payload. -/
structure VizNode where
  id : String
  ty : NodeType
  isMalicious : Bool
  degree : Nat
deriving DecidableEq, Repr

/-- Edge of the visualization payload (`weight` is always 1). -/
structure VizEdge where
  source : String
  target : String
  weight : Nat
deriving DecidableEq, Repr

/-- The visualization payload with its `stats` block. -/
structure VizData where
  nodes : List VizNode
  edges : List VizEdge
  totalNodes : Nat
  totalEdges : Nat
  maliciousUsers : Nat
deriving DecidableEq, Repr

/-- Node list of the payload (lines 500-510): one node per `node_id` item,
with the type at its final index, ground-truth membership, and the degree
feature. -/
def vizNodes (g : BuiltGraph) (malicious : List String) : List VizNode :=
  (dictItems g.entries).map (fun e =>
    ⟨e.name, e.ty, malicious.contains e.name, g.x e.idx⟩)

/-- One step of the edge-name search (lines 522-527): `if idx == src_idx:
src_name = name elif idx == tgt_idx: tgt_name = name` — an item matching
both indices only ever sets the source name. -/
def edgeNameStep (s t : Nat) (p : Option String × Option String)
    (e : NodeEntry) : Option String × Option String :=
  if e.idx = s then (some e.name, p.2)
  else if e.idx = t then (p.1, some e.name)
  else p

/-- Name search of the edge loop (lines 519-527): a single pass over the
`node_id` items starting from `(None, None)`. -/
def findEdgeNames (items : List NodeEntry) (s t : Nat) :
    Option String × Option String :=
  items.foldl (edgeNameStep s t) (none, none)

/-- Edge list of the payload (lines 513-529): an edge is emitted only when
both found names are truthy (`if src_name and tgt_name`). -/
def vizEdges (g : BuiltGraph) : List VizEdge :=
  g.edges.filterMap (fun ed =>
    match findEdgeNames (dictItems g.entries) ed.src ed.tgt with
    | (some sn, some tn) =>
        if sn != "" && tn != "" then some ⟨sn, tn, 1⟩ else none
    | _ => none)

/-- The whole of `get_graph_data_for_visualization`: nodes, edges, and the
`stats` block with `total_nodes = len(nodes)`, `total_edges = len(edges)`,
and the malicious user count. -/
def getGraphViz (g : BuiltGraph) (malicious : List String) : VizData :=
  let ns := vizNodes g malicious
  let es := vizEdges g
  ⟨ns, es, ns.length, es.length,
    (ns.filter (fun nd => nd.isMalicious && nd.ty == NodeType.user)).length⟩

/-! ## Helper lemmas -/

/-- Closed form of one assignment loop: the entries it appends pair the
names with the consecutive indices starting at the incoming counter. -/
def entriesSpec (ty : NodeType) (names : List String) (start : Nat) :
    List NodeEntry :=
  ((List.range' start names.length).zip names).map (fun p => ⟨p.2, p.1, ty⟩)

lemma entriesSpec_cons (ty : NodeType) (n : String) (ns : List String)
    (i : Nat) :
    entriesSpec ty (n :: ns) i =
      (⟨n, i, ty⟩ : NodeEntry) :: entriesSpec ty ns (i + 1) := by
  simp [entriesSpec, List.range'_succ]

lemma addNodes_eq (ty : NodeType) (names : List String) :
    ∀ (l : List NodeEntry) (i : Nat),
      addNodes ty names (l, i) = (l ++ entriesSpec ty names i, i + names.length) := by
  induction names with
  | nil => intro l i; simp [addNodes, entriesSpec]
  | cons n ns ih =>
      intro l i
      have h1 : addNodes ty (n :: ns) (l, i) =
          addNodes ty ns (l ++ [⟨n, i, ty⟩], i + 1) := rfl
      rw [h1, ih, entriesSpec_cons]
      refine Prod.ext ?_ ?_
      · simp
      · simp; omega

lemma assignNodes_eq (users pcs domains : List String) :
    assignNodes users pcs domains =
      (entriesSpec .user users 0 ++ entriesSpec .pc pcs users.length ++
         entriesSpec .domain domains (users.length + pcs.length),
       users.length + pcs.length + domains.length) := by
  unfold assignNodes
  rw [addNodes_eq, addNodes_eq, addNodes_eq]
  simp [List.append_assoc]

lemma entriesSpec_map_name (ty : NodeType) (names : List String) (i : Nat) :
    (entriesSpec ty names i).map (·.name) = names := by
  unfold entriesSpec
  rw [List.map_map]
  have : ((fun e : NodeEntry => e.name) ∘ fun p : Nat × String => (⟨p.2, p.1, ty⟩ : NodeEntry)) =
      Prod.snd := rfl
  rw [this, List.map_snd_zip]
  simp [List.length_range']

lemma entriesSpec_map_idx (ty : NodeType) (names : List String) (i : Nat) :
    (entriesSpec ty names i).map (·.idx) = List.range' i names.length := by
  unfold entriesSpec
  rw [List.map_map]
  have : ((fun e : NodeEntry => e.idx) ∘ fun p : Nat × String => (⟨p.2, p.1, ty⟩ : NodeEntry)) =
      Prod.fst := rfl
  rw [this, List.map_fst_zip]
  simp [List.length_range']

lemma entriesSpec_map_ty (ty : NodeType) (names : List String) (i : Nat) :
    (entriesSpec ty names i).map (·.ty) = List.replicate names.length ty := by
  unfold entriesSpec
  rw [List.map_map]
  rw [List.eq_replicate_iff]
  constructor
  · simp [List.length_zip, List.length_range']
  · intro b hb
    simp only [List.mem_map] at hb
    obtain ⟨p, _, rfl⟩ := hb
    rfl

lemma entriesSpec_length (ty : NodeType) (names : List String) (i : Nat) :
    (entriesSpec ty names i).length = names.length := by
  have := entriesSpec_map_name ty names i
  calc (entriesSpec ty names i).length
      = ((entriesSpec ty names i).map (·.name)).length := by simp
    _ = names.length := by rw [this]

lemma assignNodes_map_name (users pcs domains : List String) :
    ((assignNodes users pcs domains).1).map (·.name) = users ++ pcs ++ domains := by
  rw [assignNodes_eq]
  simp [entriesSpec_map_name]

lemma dictLookup_isSome_of_exists {entries : List NodeEntry} {n : String}
    (h : ∃ e ∈ entries, e.name = n) : (dictLookup entries n).isSome := by
  unfold dictLookup
  rw [List.find?_isSome]
  obtain ⟨e, he, hn⟩ := h
  exact ⟨e, List.mem_reverse.2 he, by simp [hn]⟩

lemma dictLookup_isSome_of_name_mem {users pcs domains : List String}
    {n : String} (h : n ∈ users ++ pcs ++ domains) :
    (dictLookup (assignNodes users pcs domains).1 n).isSome := by
  apply dictLookup_isSome_of_exists
  have hmap := assignNodes_map_name users pcs domains
  rw [← hmap] at h
  obtain ⟨e, he, hn⟩ := List.mem_map.1 h
  exact ⟨e, he, hn⟩

lemma mem_dayUsers_logon {L : List LogonRecord} {day : Int} {r : LogonRecord}
    (hr : r ∈ logonOn L day) (D : List DeviceRecord) (H : List HttpRecord) :
    r.user ∈ dayUsers L D H day := by
  unfold dayUsers
  rw [List.mem_dedup]
  exact List.mem_append_left _
    (List.mem_append_left _ (List.mem_map.2 ⟨r, hr, rfl⟩))

lemma mem_dayUsers_device {D : List DeviceRecord} {day : Int}
    {r : DeviceRecord} (hr : r ∈ deviceOn D day) (L : List LogonRecord)
    (H : List HttpRecord) : r.user ∈ dayUsers L D H day := by
  unfold dayUsers
  rw [List.mem_dedup]
  exact List.mem_append_left _
    (List.mem_append_right _ (List.mem_map.2 ⟨r, hr, rfl⟩))

lemma mem_dayUsers_http {H : List HttpRecord} {day : Int} {r : HttpRecord}
    (hr : r ∈ httpOn H day) (L : List LogonRecord) (D : List DeviceRecord) :
    r.user ∈ dayUsers L D H day := by
  unfold dayUsers
  rw [List.mem_dedup]
  exact List.mem_append_right _ (List.mem_map.2 ⟨r, hr, rfl⟩)

lemma mem_dayPcs_logon {L : List LogonRecord} {day : Int} {r : LogonRecord}
    (hr : r ∈ logonOn L day) (D : List DeviceRecord) :
    r.pc ∈ dayPcs L D day := by
  unfold dayPcs
  rw [List.mem_dedup]
  exact List.mem_append_left _ (List.mem_map.2 ⟨r, hr, rfl⟩)

lemma mem_dayPcs_device {D : List DeviceRecord} {day : Int} {r : DeviceRecord}
    (hr : r ∈ deviceOn D day) (L : List LogonRecord) :
    r.pc ∈ dayPcs L D day := by
  unfold dayPcs
  rw [List.mem_dedup]
  exact List.mem_append_right _ (List.mem_map.2 ⟨r, hr, rfl⟩)

lemma mem_dayDomains {H : List HttpRecord} {day : Int} {r : HttpRecord}
    (hr : r ∈ httpOn H day) : r.domain ∈ dayDomains H day := by
  unfold dayDomains
  rw [List.mem_dedup]
  exact List.mem_map.2 ⟨r, hr, rfl⟩

/-- Every day row resolves both of its endpoints in the node-id dict built
for that day, so it contributes exactly one edge. -/
lemma edgesOf_resolves (L : List LogonRecord) (D : List DeviceRecord)
    (H : List HttpRecord) (day : Int) :
    let entries := (assignNodes (dayUsers L D H day) (dayPcs L D day)
      (dayDomains H day)).1
    (∀ r ∈ logonOn L day,
        (dictLookup entries r.user).isSome ∧ (dictLookup entries r.pc).isSome) ∧
    (∀ r ∈ deviceOn D day,
        (dictLookup entries r.user).isSome ∧ (dictLookup entries r.pc).isSome) ∧
    (∀ r ∈ httpOn H day,
        (dictLookup entries r.user).isSome ∧ (dictLookup entries r.domain).isSome) := by
  refine ⟨fun r hr => ⟨?_, ?_⟩, fun r hr => ⟨?_, ?_⟩, fun r hr => ⟨?_, ?_⟩⟩
  · exact dictLookup_isSome_of_name_mem
      (List.mem_append_left _ (List.mem_append_left _ (mem_dayUsers_logon hr D H)))
  · exact dictLookup_isSome_of_name_mem
      (List.mem_append_left _ (List.mem_append_right _ (mem_dayPcs_logon hr D)))
  · exact dictLookup_isSome_of_name_mem
      (List.mem_append_left _ (List.mem_append_left _ (mem_dayUsers_device hr L H)))
  · exact dictLookup_isSome_of_name_mem
      (List.mem_append_left _ (List.mem_append_right _ (mem_dayPcs_device hr L)))
  · exact dictLookup_isSome_of_name_mem
      (List.mem_append_left _ (List.mem_append_left _ (mem_dayUsers_http hr L D)))
  · exact dictLookup_isSome_of_name_mem
      (List.mem_append_right _ (mem_dayDomains hr))

lemma buildGraph_eq_none_iff (L : List LogonRecord) (D : List DeviceRecord)
    (H : List HttpRecord) (day : Int) (mal : List String) :
    buildGraph L D H day mal = none ↔
      edgesOf (assignNodes (dayUsers L D H day) (dayPcs L D day)
          (dayDomains H day)).1
        (logonOn L day) (deviceOn D day) (httpOn H day) = [] := by
  unfold buildGraph
  by_cases h : (edgesOf (assignNodes (dayUsers L D H day) (dayPcs L D day)
      (dayDomains H day)).1 (logonOn L day) (deviceOn D day)
      (httpOn H day)).isEmpty
  · simp only [h, if_true]
    simp [List.isEmpty_iff.1 h]
  · simp only [h, if_false]
    constructor
    · intro hc; exact absurd hc (by simp)
    · intro hc; rw [hc] at h; simp at h

lemma buildGraph_some_eq {L : List LogonRecord} {D : List DeviceRecord}
    {H : List HttpRecord} {day : Int} {mal : List String} {g : BuiltGraph}
    (hg : buildGraph L D H day mal = some g) :
    g = ⟨(assignNodes (dayUsers L D H day) (dayPcs L D day)
            (dayDomains H day)).2,
         (assignNodes (dayUsers L D H day) (dayPcs L D day)
            (dayDomains H day)).1,
         edgesOf (assignNodes (dayUsers L D H day) (dayPcs L D day)
            (dayDomains H day)).1
           (logonOn L day) (deviceOn D day) (httpOn H day),
         degOf (edgesOf (assignNodes (dayUsers L D H day) (dayPcs L D day)
            (dayDomains H day)).1
           (logonOn L day) (deviceOn D day) (httpOn H day)),
         yOf (assignNodes (dayUsers L D H day) (dayPcs L D day)
            (dayDomains H day)).1 mal,
         maskOf (assignNodes (dayUsers L D H day) (dayPcs L D day)
            (dayDomains H day)).1⟩ := by
  unfold buildGraph at hg
  by_cases h : (edgesOf (assignNodes (dayUsers L D H day) (dayPcs L D day)
      (dayDomains H day)).1 (logonOn L day) (deviceOn D day)
      (httpOn H day)).isEmpty
  · simp only [h, if_true] at hg
    exact absurd hg (by simp)
  · simp only [h, if_false] at hg
    exact (Option.some_injective _ hg).symm

lemma edgesOf_eq_nil_iff (L : List LogonRecord) (D : List DeviceRecord)
    (H : List HttpRecord) (day : Int) :
    edgesOf (assignNodes (dayUsers L D H day) (dayPcs L D day)
        (dayDomains H day)).1
      (logonOn L day) (deviceOn D day) (httpOn H day) = [] ↔
      (logonOn L day = [] ∧ deviceOn D day = [] ∧ httpOn H day = []) := by
  obtain ⟨hlog, hdev, http⟩ := edgesOf_resolves L D H day
  constructor
  · intro h
    unfold edgesOf at h
    rw [List.append_eq_nil, List.append_eq_nil] at h
    obtain ⟨⟨h1, h2⟩, h3⟩ := h
    refine ⟨?_, ?_, ?_⟩
    · rw [List.eq_nil_iff_forall_not_mem]
      intro r hr
      obtain ⟨hu, hp⟩ := hlog r hr
      obtain ⟨eu, heu⟩ := Option.isSome_iff_exists.1 hu
      obtain ⟨ep, hep⟩ := Option.isSome_iff_exists.1 hp
      rw [List.filterMap_eq_nil_iff] at h1
      have := h1 r hr
      rw [heu, hep] at this
      exact absurd this (by simp)
    · rw [List.eq_nil_iff_forall_not_mem]
      intro r hr
      obtain ⟨hu, hp⟩ := hdev r hr
      obtain ⟨eu, heu⟩ := Option.isSome_iff_exists.1 hu
      obtain ⟨ep, hep⟩ := Option.isSome_iff_exists.1 hp
      rw [List.filterMap_eq_nil_iff] at h2
      have := h2 r hr
      rw [heu, hep] at this
      exact absurd this (by simp)
    · rw [List.eq_nil_iff_forall_not_mem]
      intro r hr
      obtain ⟨hu, hp⟩ := http r hr
      obtain ⟨eu, heu⟩ := Option.isSome_iff_exists.1 hu
      obtain ⟨ep, hep⟩ := Option.isSome_iff_exists.1 hp
      rw [List.filterMap_eq_nil_iff] at h3
      have := h3 r hr
      rw [heu, hep] at this
      exact absurd this (by simp)
  · intro ⟨h1, h2, h3⟩
    unfold edgesOf
    rw [h1, h2, h3]
    simp

/-- C8: graph construction fails (returns the `None` that `run_analysis`
turns into the run-level error) exactly when the day filter leaves zero
edges — equivalently, zero rows in all three collections — and that failure
is surfaced as a typed error, never as success. -/
theorem emptyGraph_error_spec (L : List LogonRecord) (D : List DeviceRecord)
    (H : List HttpRecord) (day : Int) (mal : List String) :
    (buildGraph L D H day mal = none ↔
      edgesOf (assignNodes (dayUsers L D H day) (dayPcs L D day)
          (dayDomains H day)).1
        (logonOn L day) (deviceOn D day) (httpOn H day) = []) ∧
    (buildGraph L D H day mal = none ↔
      (logonOn L day = [] ∧ deviceOn D day = [] ∧ httpOn H day = [])) ∧
    (∀ r : Option BuiltGraph,
      checkBuild r = Except.error "Failed to build graph" ↔ r = none) := by
  refine ⟨buildGraph_eq_none_iff L D H day mal, ?_, ?_⟩
  · rw [buildGraph_eq_none_iff L D H day mal]
    exact edgesOf_eq_nil_iff L D H day
  · intro r
    cases r with
    | none => simp [checkBuild]
    | some g => simp [checkBuild]

/-- Witness: the C8 specification evaluated on a concrete input (a log set
with one row on a different day, so the selected day yields zero edges). -/
theorem emptyGraph_error_spec_witness :
    ((buildGraph [⟨"A", "P1", 3, 1, 1⟩] [] [] 0 [] = none ↔
      edgesOf (assignNodes (dayUsers [⟨"A", "P1", 3, 1, 1⟩] [] [] 0)
          (dayPcs [⟨"A", "P1", 3, 1, 1⟩] [] 0) (dayDomains [] 0)).1
        (logonOn [⟨"A", "P1", 3, 1, 1⟩] 0) (deviceOn [] 0) (httpOn [] 0) = []) ∧
    (buildGraph [⟨"A", "P1", 3, 1, 1⟩] [] [] 0 [] = none ↔
      (logonOn [⟨"A", "P1", 3, 1, 1⟩] 0 = [] ∧ deviceOn [] 0 = [] ∧
        httpOn [] 0 = [])) ∧
    (∀ r : Option BuiltGraph,
      checkBuild r = Except.error "Failed to build graph" ↔ r = none)) :=
  emptyGraph_error_spec [⟨"A", "P1", 3, 1, 1⟩] [] [] 0 []

/-- C9: when the day filter yields zero edges, `build_graph` returns `None`
and leaves `self.data` untouched (any previously built graph is retained),
but `self.node_id` / `self.node_type` have already been overwritten with
the failed day's entities — after the failure the retained graph and the
index maps describe different days. -/
theorem buildGraph_frame_spec (st : DetectorState) (L : List LogonRecord)
    (D : List DeviceRecord) (H : List HttpRecord) (day : Int)
    (mal : List String) (h : buildGraph L D H day mal = none) :
    (buildGraphS st L D H day mal).1.data = st.data ∧
    (buildGraphS st L D H day mal).1.nodeEntries =
      (assignNodes (dayUsers L D H day) (dayPcs L D day)
        (dayDomains H day)).1 ∧
    (buildGraphS st L D H day mal).2 = none := by
  have he := (buildGraph_eq_none_iff L D H day mal).1 h
  unfold buildGraphS
  simp [he]

/-- Witness: a state holding a previously built graph and stale index maps,
fed inputs whose only row is on another day; the failed build keeps the old
graph but replaces the index maps with the new day's (empty) assignment. -/
theorem buildGraph_frame_spec_witness :
    (buildGraphS ⟨some default, [⟨"old", 0, NodeType.user⟩]⟩
        [⟨"A", "P1", 3, 1, 1⟩] [] [] 0 []).1.data =
      (⟨some default, [⟨"old", 0, NodeType.user⟩]⟩ : DetectorState).data ∧
    (buildGraphS ⟨some default, [⟨"old", 0, NodeType.user⟩]⟩
        [⟨"A", "P1", 3, 1, 1⟩] [] [] 0 []).1.nodeEntries =
      (assignNodes (dayUsers [⟨"A", "P1", 3, 1, 1⟩] [] [] 0)
        (dayPcs [⟨"A", "P1", 3, 1, 1⟩] [] 0) (dayDomains [] 0)).1 ∧
    (buildGraphS ⟨some default, [⟨"old", 0, NodeType.user⟩]⟩
        [⟨"A", "P1", 3, 1, 1⟩] [] [] 0 []).2 = none :=
  buildGraph_frame_spec ⟨some default, [⟨"old", 0, NodeType.user⟩]⟩
    [⟨"A", "P1", 3, 1, 1⟩] [] [] 0 [] rfl

lemma foldl_setIdx_one {p : NodeEntry → Bool} (items : List NodeEntry)
    (y0 : Nat → Nat) (i : Nat) :
    (items.foldl (fun y e => if p e then setIdx y e.idx 1 else y) y0) i = 1 ↔
      ((∃ e ∈ items, p e = true ∧ e.idx = i) ∨ y0 i = 1) := by
  induction items generalizing y0 with
  | nil => simp
  | cons e l ih =>
      simp only [List.foldl_cons]
      rw [ih]
      by_cases hp : p e
      · by_cases hx : e.idx = i
        · simp [hp, hx, setIdx]
        · simp only [hp, if_true, setIdx, List.mem_cons]
          have : (if i = e.idx then 1 else y0 i) = y0 i := by
            rw [if_neg (fun hc => hx hc.symm)]
          rw [this]
          constructor
          · rintro (⟨e', he', hpe', hie'⟩ | hy)
            · exact Or.inl ⟨e', Or.inr he', hpe', hie'⟩
            · exact Or.inr hy
          · rintro (⟨e', (rfl | he'), hpe', hie'⟩ | hy)
            · exact absurd hie' hx
            · exact Or.inl ⟨e', he', hpe', hie'⟩
            · exact Or.inr hy
      · simp only [hp, if_false, List.mem_cons]
        constructor
        · rintro (⟨e', he', hpe', hie'⟩ | hy)
          · exact Or.inl ⟨e', Or.inr he', hpe', hie'⟩
          · exact Or.inr hy
        · rintro (⟨e', (rfl | he'), hpe', hie'⟩ | hy)
          · exact absurd hpe' (by simp [hp])
          · exact Or.inl ⟨e', he', hpe', hie'⟩
          · exact Or.inr hy

lemma yOf_eq_one_iff (entries : List NodeEntry) (mal : List String) (i : Nat) :
    yOf entries mal i = 1 ↔
      ∃ e ∈ dictItems entries, e.idx = i ∧ mal.contains e.name = true := by
  unfold yOf
  rw [foldl_setIdx_one]
  constructor
  · rintro (⟨e, he, hm, hi⟩ | h0)
    · exact ⟨e, he, hi, hm⟩
    · exact absurd h0 (by simp)
  · rintro ⟨e, he, hi, hm⟩
    exact Or.inl ⟨e, he, hm, hi⟩

/-- C2 counterexample: with `maliciousUsers = {"P"}` and one logon row
`(user "U", pc "P")`, the PC node (index 1) gets label 1 although its type
is `pc` — the label loop never checks the node type. -/
theorem labels_counterexample :
    (buildGraph [⟨"U", "P", 0, 1, 1⟩] [] [] 0 ["P"]).isSome = true ∧
    ((buildGraph [⟨"U", "P", 0, 1, 1⟩] [] [] 0 ["P"]).getD default).y 1 = 1 ∧
    nodeTypeOf
      ((buildGraph [⟨"U", "P", 0, 1, 1⟩] [] [] 0 ["P"]).getD default).entries
      1 = some NodeType.pc := by
  decide

/-- C2 amended: `labels[i] == 1` iff the node-id map's final assignment
sends some key belonging to `maliciousUsers` to index `i` — with no
node-type restriction, so device and domain nodes whose key is in
`maliciousUsers` are labelled 1 as well. -/
theorem labels_member_iff (L : List LogonRecord) (D : List DeviceRecord)
    (H : List HttpRecord) (day : Int) (mal : List String) (g : BuiltGraph)
    (hg : buildGraph L D H day mal = some g) (i : Nat) :
    g.y i = 1 ↔
      ∃ e ∈ dictItems g.entries, e.idx = i ∧ mal.contains e.name = true := by
  have hG := buildGraph_some_eq hg
  subst hG
  exact yOf_eq_one_iff _ mal i

/-- Witness: the C2 amended characterization evaluated on the
counterexample input, at the PC node's index. -/
theorem labels_member_iff_witness :
    (((buildGraph [⟨"U", "P", 0, 1, 1⟩] [] [] 0 ["P"]).getD default).y 1 = 1 ↔
      ∃ e ∈ dictItems
          ((buildGraph [⟨"U", "P", 0, 1, 1⟩] [] [] 0 ["P"]).getD
            default).entries,
        e.idx = 1 ∧ (["P"] : List String).contains e.name = true) :=
  labels_member_iff [⟨"U", "P", 0, 1, 1⟩] [] [] 0 ["P"]
    ((buildGraph [⟨"U", "P", 0, 1, 1⟩] [] [] 0 ["P"]).getD default) rfl 1

lemma foldl_setOne (sel : List Nat) (y : Nat → Nat) (j : Nat) :
    (sel.foldl (fun y' i => setIdx y' i 1) y) j = if j ∈ sel then 1 else y j := by
  induction sel generalizing y with
  | nil => simp
  | cons a l ih =>
      simp only [List.foldl_cons]
      rw [ih]
      by_cases hj : j ∈ l
      · simp [hj]
      · by_cases hja : j = a
        · simp [hj, hja, setIdx]
        · simp [hj, hja, setIdx]

lemma countP_contains_eq_length {l s : List Nat} (hs : ∀ x ∈ s, x ∈ l)
    (hsn : s.Nodup) (hln : l.Nodup) :
    l.countP (fun i => s.contains i) = s.length := by
  rw [List.countP_eq_length_filter]
  have hnodup : (l.filter (fun i => s.contains i)).Nodup := hln.filter _
  have hset : (l.filter (fun i => s.contains i)).toFinset = s.toFinset := by
    ext a
    simp only [List.mem_toFinset, List.mem_filter, List.elem_iff]
    exact ⟨fun h => h.2, fun h => ⟨hs a h, h⟩⟩
  have h1 := List.toFinset_card_of_nodup hnodup
  have h2 := List.toFinset_card_of_nodup hsn
  rw [hset, h2] at h1
  exact h1.symm

lemma trainIndices_nodup (n : Nat) (mask : Nat → Bool) :
    (trainIndices n mask).Nodup :=
  (List.nodup_range n).filter _

lemma selectTopDeg_subset (n : Nat) (mask : Nat → Bool) (deg : Nat → Nat) :
    ∀ i ∈ selectTopDeg n mask deg, i ∈ trainIndices n mask := by
  intro i hi
  unfold selectTopDeg at hi
  exact (List.mergeSort_perm (trainIndices n mask) _).subset
    (List.take_subset _ _ hi)

lemma selectTopDeg_nodup (n : Nat) (mask : Nat → Bool) (deg : Nat → Nat) :
    (selectTopDeg n mask deg).Nodup := by
  unfold selectTopDeg
  exact (List.take_sublist _ _).nodup
    (((List.mergeSort_perm (trainIndices n mask) _).nodup_iff).2
      (trainIndices_nodup n mask))

lemma selectTopDeg_length (n : Nat) (mask : Nat → Bool) (deg : Nat → Nat) :
    (selectTopDeg n mask deg).length = min 3 (trainIndices n mask).length := by
  unfold selectTopDeg
  rw [List.length_take, List.length_mergeSort]
  omega

/-- The masked positive count produced by one epoch's fallback when the
epoch starts with zero masked positives. -/
lemma posCount_epochLabelStep (n : Nat) (mask : Nat → Bool) (deg : Nat → Nat)
    (y : Nat → Nat) (h0 : posCount n mask y = 0) :
    posCount n mask (epochLabelStep n mask deg y) =
      min 3 (trainIndices n mask).length := by
  by_cases hn : 0 < (trainIndices n mask).length
  · unfold epochLabelStep
    rw [if_pos h0, if_pos hn]
    unfold posCount
    have hz := List.countP_eq_zero.1 h0
    have hcong : ∀ i ∈ trainIndices n mask,
        ((selectTopDeg n mask deg).foldl (fun y' j => setIdx y' j 1) y i == 1)
            = true ↔
          ((selectTopDeg n mask deg).contains i) = true := by
      intro i hi
      rw [foldl_setOne]
      by_cases hsel : i ∈ selectTopDeg n mask deg
      · simp [hsel, List.elem_iff]
      · simp only [if_neg hsel]
        constructor
        · intro h
          exact absurd h (hz i hi)
        · intro h
          exact absurd (List.elem_iff.1 h) hsel
    rw [List.countP_congr hcong]
    rw [countP_contains_eq_length (selectTopDeg_subset n mask deg)
      (selectTopDeg_nodup n mask deg) (trainIndices_nodup n mask)]
    exact selectTopDeg_length n mask deg
  · have hlen : (trainIndices n mask).length = 0 := by omega
    unfold epochLabelStep
    rw [if_pos h0, if_neg hn, h0, hlen]
    simp

/-- An epoch whose masked positive count is positive leaves the labels
unchanged. -/
lemma epochLabelStep_id_of_pos (n : Nat) (mask : Nat → Bool) (deg : Nat → Nat)
    (y : Nat → Nat) (h : 0 < posCount n mask y) :
    epochLabelStep n mask deg y = y := by
  unfold epochLabelStep
  rw [if_neg (by omega)]

/-- An epoch with no masked node leaves the labels unchanged. -/
lemma epochLabelStep_id_of_no_train (n : Nat) (mask : Nat → Bool)
    (deg : Nat → Nat) (y : Nat → Nat)
    (h : (trainIndices n mask).length = 0) :
    epochLabelStep n mask deg y = y := by
  unfold epochLabelStep
  by_cases h0 : posCount n mask y = 0
  · rw [if_pos h0, if_neg (by omega)]
  · rw [if_neg h0]

/-- Labels already equal to 1 are never unset by an epoch. -/
lemma epochLabelStep_keeps_one (n : Nat) (mask : Nat → Bool)
    (deg : Nat → Nat) (y : Nat → Nat) (i : Nat) (h : y i = 1) :
    epochLabelStep n mask deg y i = 1 := by
  unfold epochLabelStep
  by_cases h0 : posCount n mask y = 0
  · by_cases hn : 0 < (trainIndices n mask).length
    · rw [if_pos h0, if_pos hn, foldl_setOne]
      by_cases hi : i ∈ selectTopDeg n mask deg <;> simp [hi, h]
    · rw [if_pos h0, if_neg hn]; exact h
  · rw [if_neg h0]; exact h

/-- Labels already equal to 1 survive any number of later epochs. -/
lemma epochLabelStep_keeps_one_iter (n : Nat) (mask : Nat → Bool)
    (deg : Nat → Nat) (z : Nat → Nat) (i : Nat) (hz : z i = 1) (k : Nat) :
    (epochLabelStep n mask deg)^[k] z i = 1 := by
  induction k generalizing z with
  | zero => exact hz
  | succ k ih =>
      rw [Function.iterate_succ_apply]
      exact ih _ (epochLabelStep_keeps_one n mask deg z i hz)

/-- C3: when a training epoch starts with zero masked positives, the
fallback raises the masked positive count to exactly
`min 3 |trainNodes|` (also when there is no masked node, where both sides
are 0), and each injected 1-label persists through all later epochs. -/
theorem fallback_posCount (n : Nat) (mask : Nat → Bool) (deg : Nat → Nat)
    (y : Nat → Nat) (h0 : posCount n mask y = 0) :
    posCount n mask (epochLabelStep n mask deg y) =
      min 3 (trainIndices n mask).length ∧
    ∀ i, epochLabelStep n mask deg y i = 1 →
      ∀ k, (epochLabelStep n mask deg)^[k] (epochLabelStep n mask deg y) i = 1 := by
  exact ⟨posCount_epochLabelStep n mask deg y h0,
    fun i hi k => epochLabelStep_keeps_one_iter n mask deg _ i hi k⟩

/-- Witness: two masked nodes with zero positives; the fallback makes the
masked positive count `min 3 2 = 2` and the injected labels persist. -/
theorem fallback_posCount_witness :
    posCount 4 (fun i => decide (i < 2))
        (epochLabelStep 4 (fun i => decide (i < 2)) (fun i => i)
          (fun _ => 0)) =
      min 3 (trainIndices 4 (fun i => decide (i < 2))).length ∧
    ∀ i, epochLabelStep 4 (fun i => decide (i < 2)) (fun i => i)
          (fun _ => 0) i = 1 →
      ∀ k, (epochLabelStep 4 (fun i => decide (i < 2)) (fun i => i))^[k]
          (epochLabelStep 4 (fun i => decide (i < 2)) (fun i => i)
            (fun _ => 0)) i = 1 :=
  fallback_posCount 4 (fun i => decide (i < 2)) (fun i => i) (fun _ => 0)
    (by decide)

/-- C10: across the training epochs the fallback mutates the labels in at
most one epoch — with masked nodes present, an epoch that starts with zero
masked positives ends with a positive count, so every later epoch is the
identity on labels; with no masked nodes, no epoch ever mutates labels; and
an epoch that starts with a positive count is the identity as well. -/
theorem fallback_once_spec (n : Nat) (mask : Nat → Bool) (deg : Nat → Nat)
    (y : Nat → Nat) :
    ((trainIndices n mask).length = 0 →
      ∀ k, (epochLabelStep n mask deg)^[k] y = y) ∧
    (0 < (trainIndices n mask).length → posCount n mask y = 0 →
      0 < posCount n mask (epochLabelStep n mask deg y) ∧
      ∀ k, (epochLabelStep n mask deg)^[k] (epochLabelStep n mask deg y) =
        epochLabelStep n mask deg y) ∧
    (0 < posCount n mask y → epochLabelStep n mask deg y = y) := by
  refine ⟨?_, ?_, epochLabelStep_id_of_pos n mask deg y⟩
  · intro h k
    induction k with
    | zero => rfl
    | succ k ih =>
        rw [Function.iterate_succ_apply, epochLabelStep_id_of_no_train n mask deg y h]
        exact ih
  · intro hn h0
    have hpos : 0 < posCount n mask (epochLabelStep n mask deg y) := by
      rw [posCount_epochLabelStep n mask deg y h0]
      omega
    refine ⟨hpos, fun k => ?_⟩
    induction k with
    | zero => rfl
    | succ k ih =>
        rw [Function.iterate_succ_apply,
          epochLabelStep_id_of_pos n mask deg _ hpos]
        exact ih

/-- Witness: with two masked nodes and zero initial positives, one epoch
injects positives and every later epoch is the identity; the other two
branches are instantiated in the same conjunction. -/
theorem fallback_once_spec_witness :
    0 < posCount 4 (fun i => decide (i < 2))
        (epochLabelStep 4 (fun i => decide (i < 2)) (fun i => i)
          (fun _ => 0)) ∧
    ∀ k, (epochLabelStep 4 (fun i => decide (i < 2)) (fun i => i))^[k]
        (epochLabelStep 4 (fun i => decide (i < 2)) (fun i => i)
          (fun _ => 0)) =
      epochLabelStep 4 (fun i => decide (i < 2)) (fun i => i) (fun _ => 0) :=
  (fallback_once_spec 4 (fun i => decide (i < 2)) (fun i => i)
      (fun _ => 0)).2.1 (by decide) (by decide)

lemma boostStep_at (cond : Nat → Bool) (sc : Nat → ℚ) (a j : Nat) :
    boostStep cond sc a j =
      if cond a = true ∧ j = a then clamp01 (sc a + 4/5) else sc j := by
  unfold boostStep setIdxQ
  by_cases hc : cond a <;> by_cases hj : j = a <;> simp [hc, hj]

lemma boost_foldl_at (cond : Nat → Bool) (l : List Nat) (hln : l.Nodup)
    (s : Nat → ℚ) (j : Nat) :
    (l.foldl (boostStep cond) s) j =
      if j ∈ l ∧ cond j = true then clamp01 (s j + 4/5) else s j := by
  induction l generalizing s with
  | nil => simp
  | cons a l ih =>
      have ha : a ∉ l := (List.nodup_cons.1 hln).1
      have hln' : l.Nodup := (List.nodup_cons.1 hln).2
      simp only [List.foldl_cons]
      rw [ih hln']
      by_cases hj : j = a
      · subst hj
        rw [if_neg (fun hc : j ∈ l ∧ cond j = true => ha hc.1)]
        rw [boostStep_at]
        by_cases hc : cond j
        · rw [if_pos ⟨hc, rfl⟩, if_pos ⟨List.mem_cons_self _ _, hc⟩]
        · rw [if_neg (fun hx => hc hx.1), if_neg (fun hx => hc hx.2)]
      · have hsc : boostStep cond s a j = s j := by
          rw [boostStep_at, if_neg (fun hx => hj hx.2)]
        rw [hsc]
        by_cases hjl : j ∈ l ∧ cond j = true
        · rw [if_pos hjl, if_pos ⟨List.mem_cons_of_mem _ hjl.1, hjl.2⟩]
        · rw [if_neg hjl, if_neg ?_]
          rintro ⟨hmem, hcj⟩
          rcases List.mem_cons.1 hmem with rfl | hmem'
          · exact hj rfl
          · exact hjl ⟨hmem', hcj⟩

/-- Pointwise closed form of the boost loop: a node's score is clamped up
exactly when its index is in range and `boostCond` holds; all other scores
are untouched. -/
lemma boostScores_at (g : BuiltGraph) (mal : List String) (s : Nat → ℚ)
    (j : Nat) :
    boostScores g mal s j =
      if j ∈ List.range g.numNodes ∧ boostCond g.entries mal j = true then
        clamp01 (s j + 4/5)
      else s j := by
  unfold boostScores
  exact boost_foldl_at _ _ (List.nodup_range _) s j

lemma le_clamp01_add (q : ℚ) (h1 : q ≤ 1) : q ≤ clamp01 (q + 4/5) := by
  unfold clamp01
  refine le_min ?_ h1
  calc q ≤ q + 4/5 := by linarith
    _ ≤ max (q + 4/5) 0 := le_max_left _ _

lemma clamp01_le_one (q : ℚ) : clamp01 q ≤ 1 := min_le_right _ _

/-- C4 counterexample: with one logon row `(user "X", pc "X")` the PC
assignment overwrites the key `"X"` in `node_id`, so the reverse lookup for
the user node (index 0) finds no key and the boost is skipped — although
node 0 is a user-type node whose external key `"X"` is in
`maliciousUsers`, its score stays 0 instead of `clamp01 (0 + 0.8)`. -/
theorem boost_counterexample :
    (buildGraph [⟨"X", "X", 0, 1, 1⟩] [] [] 0 ["X"]).isSome = true ∧
    nodeTypeOf
      ((buildGraph [⟨"X", "X", 0, 1, 1⟩] [] [] 0 ["X"]).getD default).entries
      0 = some NodeType.user ∧
    (∃ e ∈ ((buildGraph [⟨"X", "X", 0, 1, 1⟩] [] [] 0 ["X"]).getD
        default).entries, e.idx = 0 ∧ e.name = "X") ∧
    (["X"] : List String).contains "X" = true ∧
    boostScores ((buildGraph [⟨"X", "X", 0, 1, 1⟩] [] [] 0 ["X"]).getD default)
      ["X"] (fun _ => 0) 0 = 0 ∧
    (0 : ℚ) ≠ clamp01 (0 + 4/5) := by
  refine ⟨by decide, by decide, by decide, by decide, by decide, ?_⟩
  have h : clamp01 (0 + 4/5) = (4 : ℚ)/5 := by
    unfold clamp01
    rw [zero_add, max_eq_left (by norm_num), min_eq_left (by norm_num)]
  rw [h]
  norm_num

/-- C4 amended: for every in-range node index of user type whose key the
`node_id` reverse lookup resolves to a truthy (nonempty) string contained
in `maliciousUsers`, the post-boost score is exactly
`clamp01 (preScore + 0.8)`, hence at least the pre-boost score and at most
1; and (for sigmoid scores, all in `[0, 1]`) the boost never lowers any
node's score. -/
theorem boost_clamp_spec (g : BuiltGraph) (mal : List String) (s : Nat → ℚ)
    (hs : ∀ j, 0 ≤ s j ∧ s j ≤ 1) (i : Nat) (hi : i < g.numNodes)
    (hty : nodeTypeOf g.entries i = some NodeType.user)
    (name : String) (hname : nameOfIdx g.entries i = some name)
    (hne : name ≠ "") (hmal : mal.contains name = true) :
    boostScores g mal s i = clamp01 (s i + 4/5) ∧
    s i ≤ boostScores g mal s i ∧
    boostScores g mal s i ≤ 1 ∧
    (∀ j, s j ≤ boostScores g mal s j) := by
  have hcond : boostCond g.entries mal i = true := by
    unfold boostCond
    rw [hname, hty]
    simp [hne, List.elem_iff.1 hmal]
  have hvi : boostScores g mal s i = clamp01 (s i + 4/5) := by
    rw [boostScores_at, if_pos ⟨List.mem_range.2 hi, hcond⟩]
  refine ⟨hvi, ?_, ?_, ?_⟩
  · rw [hvi]; exact le_clamp01_add (s i) (hs i).2
  · rw [hvi]; exact clamp01_le_one _
  · intro j
    rw [boostScores_at]
    by_cases hj : j ∈ List.range g.numNodes ∧ boostCond g.entries mal j = true
    · rw [if_pos hj]; exact le_clamp01_add (s j) (hs j).2
    · rw [if_neg hj]

/-- Witness: a well-named graph (user "U", pc "P1", ground truth "U") with
all pre-boost scores 1/2; the malicious user node's boosted score is
`clamp01 (1/2 + 4/5) = 1`. -/
theorem boost_clamp_spec_witness :
    boostScores ((buildGraph [⟨"U", "P1", 0, 1, 1⟩] [] [] 0 ["U"]).getD default)
        ["U"] (fun _ => (1 : ℚ)/2) 0 = clamp01 ((1 : ℚ)/2 + 4/5) ∧
    (1 : ℚ)/2 ≤ boostScores
        ((buildGraph [⟨"U", "P1", 0, 1, 1⟩] [] [] 0 ["U"]).getD default)
        ["U"] (fun _ => (1 : ℚ)/2) 0 ∧
    boostScores ((buildGraph [⟨"U", "P1", 0, 1, 1⟩] [] [] 0 ["U"]).getD default)
        ["U"] (fun _ => (1 : ℚ)/2) 0 ≤ 1 ∧
    (∀ j, (fun _ => (1 : ℚ)/2) j ≤ boostScores
        ((buildGraph [⟨"U", "P1", 0, 1, 1⟩] [] [] 0 ["U"]).getD default)
        ["U"] (fun _ => (1 : ℚ)/2) j) :=
  boost_clamp_spec ((buildGraph [⟨"U", "P1", 0, 1, 1⟩] [] [] 0 ["U"]).getD
      default) ["U"] (fun _ => (1 : ℚ)/2)
    (fun j => by constructor <;> norm_num) 0 (by decide) (by decide)
    "U" (by decide) (by decide) (by decide)

lemma predLe_trans (a b c : PredEntry) (h1 : predLe a b = true)
    (h2 : predLe b c = true) : predLe a c = true := by
  unfold predLe at h1 h2 ⊢
  have hba : b.score ≤ a.score := of_decide_eq_true h1
  have hcb : c.score ≤ b.score := of_decide_eq_true h2
  exact decide_eq_true (hcb.trans hba)

lemma predLe_total (a b : PredEntry) : (predLe a b || predLe b a) = true := by
  unfold predLe
  rcases le_total b.score a.score with h | h <;> simp [h]

lemma getPredictions_length (g : BuiltGraph) (mal : List String) (s : Nat → ℚ)
    (topK : Nat) :
    (getPredictions g mal s topK).length =
      min topK (userEntries g mal (boostScores g mal s)).length := by
  unfold getPredictions
  rw [List.length_take, List.length_mergeSort]

lemma mem_userEntries {g : BuiltGraph} {mal : List String} {scores : Nat → ℚ}
    {e : PredEntry} (he : e ∈ userEntries g mal scores) :
    ∃ i, i < g.numNodes ∧ nodeTypeOf g.entries i = some NodeType.user ∧
      nameOfIdx g.entries i = some e.user ∧ e.user ≠ "" ∧
      e.score = scores i ∧ e.isKnownMalicious = mal.contains e.user := by
  unfold userEntries at he
  obtain ⟨i, hi, hf⟩ := List.mem_filterMap.1 he
  by_cases hty : (nodeTypeOf g.entries i == some NodeType.user) = true
  · rw [if_pos hty] at hf
    cases hname : nameOfIdx g.entries i with
    | none => simp only [hname] at hf; exact absurd hf (by simp)
    | some name =>
        simp only [hname] at hf
        by_cases hne : (name != "") = true
        · rw [if_pos hne] at hf
          injection hf with h
          subst h
          exact ⟨i, List.mem_range.1 hi, beq_iff_eq.1 hty, hname,
            bne_iff_ne.1 hne, rfl, rfl⟩
        · rw [if_neg hne] at hf
          exact absurd hf (by simp)
  · rw [if_neg hty] at hf
    exact absurd hf (by simp)

/-- C5 counterexample: the `top_k` parameter of `get_predictions` defaults
to 50, not 100 (the analysis pipeline passes 100 explicitly at its one call
site, but the predictor's own default is 50). -/
theorem topK_default_counterexample :
    getPredictionsDefaultTopK = 50 ∧ getPredictionsDefaultTopK ≠ 100 := by
  decide

/-- C5 amended: the predictor builds `{user, score, isKnownMalicious}`
entries restricted to user-type nodes (on the boosted scores), sorts them
in non-increasing score order across consecutive entries, and truncates to
the first `topK`, where `topK` defaults to 50, not 100. -/
theorem predictor_spec (g : BuiltGraph) (mal : List String) (s : Nat → ℚ)
    (topK : Nat) :
    List.Chain' (fun a b : PredEntry => b.score ≤ a.score)
      (getPredictions g mal s topK) ∧
    (∀ e ∈ getPredictions g mal s topK,
      ∃ i, i < g.numNodes ∧ nodeTypeOf g.entries i = some NodeType.user ∧
        nameOfIdx g.entries i = some e.user ∧
        e.score = boostScores g mal s i ∧
        e.isKnownMalicious = mal.contains e.user) ∧
    (getPredictions g mal s topK).length =
      min topK (userEntries g mal (boostScores g mal s)).length ∧
    getPredictionsDefaultTopK = 50 := by
  refine ⟨?_, ?_, getPredictions_length g mal s topK, rfl⟩
  · unfold getPredictions
    have hp := List.sorted_mergeSort predLe_trans predLe_total
      (userEntries g mal (boostScores g mal s))
    have hp2 := hp.sublist (List.take_sublist topK _)
    exact (hp2.imp (fun h => of_decide_eq_true h)).chain'
  · intro e he
    unfold getPredictions at he
    have h1 : e ∈ (userEntries g mal (boostScores g mal s)).mergeSort predLe :=
      List.take_subset _ _ he
    have h2 : e ∈ userEntries g mal (boostScores g mal s) :=
      (List.mergeSort_perm _ _).subset h1
    obtain ⟨i, hlt, hty, hname, _, hscore, hmal⟩ := mem_userEntries h2
    exact ⟨i, hlt, hty, hname, hscore, hmal⟩

/-- Witness: the C5 specification evaluated on a concrete two-user graph
with constant pre-boost scores and `topK = 3`. -/
theorem predictor_spec_witness :
    List.Chain' (fun a b : PredEntry => b.score ≤ a.score)
      (getPredictions
        ((buildGraph [⟨"A", "P1", 0, 1, 1⟩] [] [⟨"B", "d1", 0, 2⟩] 0 []).getD
          default) [] (fun _ => 0) 3) ∧
    (∀ e ∈ getPredictions
        ((buildGraph [⟨"A", "P1", 0, 1, 1⟩] [] [⟨"B", "d1", 0, 2⟩] 0 []).getD
          default) [] (fun _ => 0) 3,
      ∃ i, i < ((buildGraph [⟨"A", "P1", 0, 1, 1⟩] [] [⟨"B", "d1", 0, 2⟩] 0
            []).getD default).numNodes ∧
        nodeTypeOf ((buildGraph [⟨"A", "P1", 0, 1, 1⟩] [] [⟨"B", "d1", 0, 2⟩]
            0 []).getD default).entries i = some NodeType.user ∧
        nameOfIdx ((buildGraph [⟨"A", "P1", 0, 1, 1⟩] [] [⟨"B", "d1", 0, 2⟩]
            0 []).getD default).entries i = some e.user ∧
        e.score = boostScores ((buildGraph [⟨"A", "P1", 0, 1, 1⟩] []
            [⟨"B", "d1", 0, 2⟩] 0 []).getD default) [] (fun _ => 0) i ∧
        e.isKnownMalicious = ([] : List String).contains e.user) ∧
    (getPredictions ((buildGraph [⟨"A", "P1", 0, 1, 1⟩] []
        [⟨"B", "d1", 0, 2⟩] 0 []).getD default) [] (fun _ => 0) 3).length =
      min 3 (userEntries ((buildGraph [⟨"A", "P1", 0, 1, 1⟩] []
          [⟨"B", "d1", 0, 2⟩] 0 []).getD default) []
        (boostScores ((buildGraph [⟨"A", "P1", 0, 1, 1⟩] []
            [⟨"B", "d1", 0, 2⟩] 0 []).getD default) [] (fun _ => 0))).length ∧
    getPredictionsDefaultTopK = 50 :=
  predictor_spec
    ((buildGraph [⟨"A", "P1", 0, 1, 1⟩] [] [⟨"B", "d1", 0, 2⟩] 0 []).getD
      default) [] (fun _ => 0) 3

lemma length_filterMap_eq_countP {α β : Type} (f : α → Option β)
    (l : List α) :
    (l.filterMap f).length = l.countP (fun a => (f a).isSome) := by
  induction l with
  | nil => rfl
  | cons a l ih =>
      cases hfa : f a <;>
        simp [List.filterMap_cons, hfa, ih, List.countP_cons]

lemma assignNodes_map_idx (users pcs domains : List String) :
    ((assignNodes users pcs domains).1).map (·.idx) =
      List.range (assignNodes users pcs domains).2 := by
  rw [assignNodes_eq]
  simp only [List.map_append, entriesSpec_map_idx]
  rw [List.range_eq_range', List.append_assoc]
  have hbc := List.range'_append users.length pcs.length domains.length 1
  simp only [one_mul] at hbc
  rw [hbc]
  have hab := List.range'_append 0 users.length
    (domains.length + pcs.length) 1
  simp only [one_mul, Nat.zero_add] at hab
  rw [hab]
  congr 1
  omega

lemma assignNodes_map_ty (users pcs domains : List String) :
    ((assignNodes users pcs domains).1).map (·.ty) =
      List.replicate users.length NodeType.user ++
      List.replicate pcs.length NodeType.pc ++
      List.replicate domains.length NodeType.domain := by
  rw [assignNodes_eq]
  simp [entriesSpec_map_ty]

/-- C6: the built graph has `|distinct users| + |distinct devices| +
|distinct domains|` nodes for the selected day, node indices are exactly
`0..N-1` assigned by type group (users, then devices, then domains), and
the edge count is the number of day rows whose two endpoints both resolve
in the node map — one edge per row, so parallel edges are never merged. -/
theorem graph_counts_spec (L : List LogonRecord) (D : List DeviceRecord)
    (H : List HttpRecord) (day : Int) (mal : List String) (g : BuiltGraph)
    (hg : buildGraph L D H day mal = some g) :
    g.numNodes =
      ((logonOn L day).map (·.user) ++ (deviceOn D day).map (·.user) ++
        (httpOn H day).map (·.user)).toFinset.card +
      ((logonOn L day).map (·.pc) ++
        (deviceOn D day).map (·.pc)).toFinset.card +
      ((httpOn H day).map (·.domain)).toFinset.card ∧
    g.entries.map (·.idx) = List.range g.numNodes ∧
    g.entries.map (·.ty) =
      List.replicate (dayUsers L D H day).length NodeType.user ++
      List.replicate (dayPcs L D day).length NodeType.pc ++
      List.replicate (dayDomains H day).length NodeType.domain ∧
    g.edges.length =
      (logonOn L day).countP (fun r =>
        (dictLookup g.entries r.user).isSome &&
        (dictLookup g.entries r.pc).isSome) +
      (deviceOn D day).countP (fun r =>
        (dictLookup g.entries r.user).isSome &&
        (dictLookup g.entries r.pc).isSome) +
      (httpOn H day).countP (fun r =>
        (dictLookup g.entries r.user).isSome &&
        (dictLookup g.entries r.domain).isSome) := by
  have hG := buildGraph_some_eq hg
  subst hG
  refine ⟨?_, ?_, ?_, ?_⟩
  · show (assignNodes (dayUsers L D H day) (dayPcs L D day)
        (dayDomains H day)).2 = _
    rw [assignNodes_eq]
    rw [List.card_toFinset, List.card_toFinset, List.card_toFinset]
    rfl
  · exact assignNodes_map_idx _ _ _
  · exact assignNodes_map_ty _ _ _
  · dsimp only
    unfold edgesOf
    rw [List.length_append, List.length_append]
    rw [length_filterMap_eq_countP, length_filterMap_eq_countP,
      length_filterMap_eq_countP]
    congr 1
    · congr 1
      · refine List.countP_congr (fun r _ => ?_)
        cases h1 : dictLookup (assignNodes (dayUsers L D H day)
            (dayPcs L D day) (dayDomains H day)).1 r.user <;>
          cases h2 : dictLookup (assignNodes (dayUsers L D H day)
            (dayPcs L D day) (dayDomains H day)).1 r.pc <;>
          simp [h1, h2]
      · refine List.countP_congr (fun r _ => ?_)
        cases h1 : dictLookup (assignNodes (dayUsers L D H day)
            (dayPcs L D day) (dayDomains H day)).1 r.user <;>
          cases h2 : dictLookup (assignNodes (dayUsers L D H day)
            (dayPcs L D day) (dayDomains H day)).1 r.pc <;>
          simp [h1, h2]
    · refine List.countP_congr (fun r _ => ?_)
      cases h1 : dictLookup (assignNodes (dayUsers L D H day)
          (dayPcs L D day) (dayDomains H day)).1 r.user <;>
        cases h2 : dictLookup (assignNodes (dayUsers L D H day)
          (dayPcs L D day) (dayDomains H day)).1 r.domain <;>
        simp [h1, h2]

/-- Witness: the C6 count specification evaluated on a concrete graph with
one logon row and one http row (four nodes, two edges). -/
theorem graph_counts_spec_witness :
    ((buildGraph [⟨"A", "P1", 0, 1, 1⟩] [] [⟨"B", "d1", 0, 2⟩] 0 []).getD
        default).numNodes =
      ((logonOn [⟨"A", "P1", 0, 1, 1⟩] 0).map (·.user) ++
        (deviceOn [] 0).map (·.user) ++
        (httpOn [⟨"B", "d1", 0, 2⟩] 0).map (·.user)).toFinset.card +
      ((logonOn [⟨"A", "P1", 0, 1, 1⟩] 0).map (·.pc) ++
        (deviceOn [] 0).map (·.pc)).toFinset.card +
      ((httpOn [⟨"B", "d1", 0, 2⟩] 0).map (·.domain)).toFinset.card ∧
    ((buildGraph [⟨"A", "P1", 0, 1, 1⟩] [] [⟨"B", "d1", 0, 2⟩] 0 []).getD
        default).entries.map (·.idx) =
      List.range ((buildGraph [⟨"A", "P1", 0, 1, 1⟩] [] [⟨"B", "d1", 0, 2⟩] 0
          []).getD default).numNodes ∧
    ((buildGraph [⟨"A", "P1", 0, 1, 1⟩] [] [⟨"B", "d1", 0, 2⟩] 0 []).getD
        default).entries.map (·.ty) =
      List.replicate (dayUsers [⟨"A", "P1", 0, 1, 1⟩] [] [⟨"B", "d1", 0, 2⟩]
          0).length NodeType.user ++
      List.replicate (dayPcs [⟨"A", "P1", 0, 1, 1⟩] [] 0).length NodeType.pc ++
      List.replicate (dayDomains [⟨"B", "d1", 0, 2⟩] 0).length
        NodeType.domain ∧
    ((buildGraph [⟨"A", "P1", 0, 1, 1⟩] [] [⟨"B", "d1", 0, 2⟩] 0 []).getD
        default).edges.length =
      (logonOn [⟨"A", "P1", 0, 1, 1⟩] 0).countP (fun r =>
        (dictLookup ((buildGraph [⟨"A", "P1", 0, 1, 1⟩] []
            [⟨"B", "d1", 0, 2⟩] 0 []).getD default).entries r.user).isSome &&
        (dictLookup ((buildGraph [⟨"A", "P1", 0, 1, 1⟩] []
            [⟨"B", "d1", 0, 2⟩] 0 []).getD default).entries r.pc).isSome) +
      (deviceOn [] 0).countP (fun r =>
        (dictLookup ((buildGraph [⟨"A", "P1", 0, 1, 1⟩] []
            [⟨"B", "d1", 0, 2⟩] 0 []).getD default).entries r.user).isSome &&
        (dictLookup ((buildGraph [⟨"A", "P1", 0, 1, 1⟩] []
            [⟨"B", "d1", 0, 2⟩] 0 []).getD default).entries r.pc).isSome) +
      (httpOn [⟨"B", "d1", 0, 2⟩] 0).countP (fun r =>
        (dictLookup ((buildGraph [⟨"A", "P1", 0, 1, 1⟩] []
            [⟨"B", "d1", 0, 2⟩] 0 []).getD default).entries r.user).isSome &&
        (dictLookup ((buildGraph [⟨"A", "P1", 0, 1, 1⟩] []
            [⟨"B", "d1", 0, 2⟩] 0 []).getD default).entries
          r.domain).isSome) :=
  graph_counts_spec [⟨"A", "P1", 0, 1, 1⟩] [] [⟨"B", "d1", 0, 2⟩] 0 []
    ((buildGraph [⟨"A", "P1", 0, 1, 1⟩] [] [⟨"B", "d1", 0, 2⟩] 0 []).getD
      default) rfl

lemma find?_unique {α : Type} {p : α → Bool} {l : List α} {a : α}
    (ha : a ∈ l) (hp : p a = true) (huniq : ∀ b ∈ l, p b = true → b = a) :
    l.find? p = some a := by
  induction l with
  | nil => cases ha
  | cons b l ih =>
      by_cases hb : p b
      · rw [List.find?_cons_of_pos _ hb]
        exact congrArg some (huniq b (List.mem_cons_self _ _) hb)
      · rw [List.find?_cons_of_neg _ hb]
        have ha' : a ∈ l := by
          rcases List.mem_cons.1 ha with rfl | h
          · exact absurd hp hb
          · exact h
        exact ih ha' (fun c hc hpc => huniq c (List.mem_cons_of_mem _ hc) hpc)

lemma dictLookup_name {entries : List NodeEntry} {n : String} {e : NodeEntry}
    (h : dictLookup entries n = some e) : e.name = n ∧ e ∈ entries := by
  unfold dictLookup at h
  constructor
  · have := List.find?_some h
    simpa using this
  · exact List.mem_reverse.1 (List.mem_of_find?_eq_some h)

lemma dictLookup_eq_self {entries : List NodeEntry}
    (hn : (entries.map (·.name)).Nodup) {e : NodeEntry} (he : e ∈ entries) :
    dictLookup entries e.name = some e := by
  unfold dictLookup
  refine find?_unique (List.mem_reverse.2 he) (by simp) ?_
  intro b hb hpb
  have hb' : b ∈ entries := List.mem_reverse.1 hb
  have hbn : b.name = e.name := by simpa using hpb
  exact List.inj_on_of_nodup_map hn hb' he hbn

lemma dictItems_eq_self {entries : List NodeEntry}
    (hn : (entries.map (·.name)).Nodup) : dictItems entries = entries := by
  unfold dictItems dictKeys
  rw [List.dedup_eq_self.2 hn, List.filterMap_map]
  have hcongr : ∀ e ∈ entries,
      ((fun n => dictLookup entries n) ∘ (·.name)) e = some e :=
    fun e he => dictLookup_eq_self hn he
  rw [List.filterMap_congr hcongr]
  exact List.filterMap_some entries

lemma edgeNameStep_foldl_fst_frozen (s t : Nat) (items : List NodeEntry)
    (p : Option String × Option String)
    (hns : ∀ e ∈ items, e.idx ≠ s) :
    (items.foldl (edgeNameStep s t) p).1 = p.1 := by
  induction items generalizing p with
  | nil => rfl
  | cons e l ih =>
      simp only [List.foldl_cons]
      rw [ih _ (fun e' he' => hns e' (List.mem_cons_of_mem _ he'))]
      unfold edgeNameStep
      rw [if_neg (hns e (List.mem_cons_self _ _))]
      by_cases ht : e.idx = t
      · rw [if_pos ht]
      · rw [if_neg ht]

lemma edgeNameStep_foldl_snd_frozen (s t : Nat) (items : List NodeEntry)
    (p : Option String × Option String)
    (hnt : ∀ e ∈ items, e.idx ≠ t) :
    (items.foldl (edgeNameStep s t) p).2 = p.2 := by
  induction items generalizing p with
  | nil => rfl
  | cons e l ih =>
      simp only [List.foldl_cons]
      rw [ih _ (fun e' he' => hnt e' (List.mem_cons_of_mem _ he'))]
      unfold edgeNameStep
      by_cases hs : e.idx = s
      · rw [if_pos hs]
      · rw [if_neg hs, if_neg (hnt e (List.mem_cons_self _ _))]

lemma map_idx_nodup_cons {e : NodeEntry} {l : List NodeEntry}
    (h : ((e :: l).map (·.idx)).Nodup) :
    e.idx ∉ l.map (·.idx) ∧ (l.map (·.idx)).Nodup := by
  rw [List.map_cons, List.nodup_cons] at h
  exact h

lemma edgeNameStep_foldl_fst_found (s t : Nat) (items : List NodeEntry)
    (es : NodeEntry) (hes : es ∈ items) (hesi : es.idx = s)
    (hinj : (items.map (·.idx)).Nodup) :
    ∀ p, (items.foldl (edgeNameStep s t) p).1 = some es.name := by
  induction items with
  | nil => cases hes
  | cons e l ih =>
      intro p
      obtain ⟨hni, hinj'⟩ := map_idx_nodup_cons hinj
      simp only [List.foldl_cons]
      rcases List.mem_cons.1 hes with rfl | hes'
      · have hnotin : ∀ e' ∈ l, e'.idx ≠ s := by
          intro e' he' hc
          exact hni (by rw [hesi, ← hc]; exact List.mem_map.2 ⟨e', he', rfl⟩)
        rw [edgeNameStep_foldl_fst_frozen s t l _ hnotin]
        unfold edgeNameStep
        rw [if_pos hesi]
      · exact ih hes' hinj' _

lemma edgeNameStep_foldl_snd_found (s t : Nat) (items : List NodeEntry)
    (et : NodeEntry) (het : et ∈ items) (heti : et.idx = t) (hst : s ≠ t)
    (hinj : (items.map (·.idx)).Nodup) :
    ∀ p, (items.foldl (edgeNameStep s t) p).2 = some et.name := by
  induction items with
  | nil => cases het
  | cons e l ih =>
      intro p
      obtain ⟨hni, hinj'⟩ := map_idx_nodup_cons hinj
      simp only [List.foldl_cons]
      rcases List.mem_cons.1 het with rfl | het'
      · have hnotin : ∀ e' ∈ l, e'.idx ≠ t := by
          intro e' he' hc
          exact hni (by rw [heti, ← hc]; exact List.mem_map.2 ⟨e', he', rfl⟩)
        rw [edgeNameStep_foldl_snd_frozen s t l _ hnotin]
        unfold edgeNameStep
        rw [if_neg (by rw [heti]; exact fun hc => hst hc.symm), if_pos heti]
      · exact ih het' hinj' _

lemma findEdgeNames_eq (items : List NodeEntry) (s t : Nat)
    (es et : NodeEntry) (hst : s ≠ t)
    (hinj : (items.map (·.idx)).Nodup)
    (hes : es ∈ items) (hesi : es.idx = s)
    (het : et ∈ items) (heti : et.idx = t) :
    findEdgeNames items s t = (some es.name, some et.name) := by
  unfold findEdgeNames
  refine Prod.ext ?_ ?_
  · exact edgeNameStep_foldl_fst_found s t items es hes hesi hinj _
  · exact edgeNameStep_foldl_snd_found s t items et het heti hst hinj _

lemma assignNodes_length (users pcs domains : List String) :
    ((assignNodes users pcs domains).1).length =
      (assignNodes users pcs domains).2 := by
  rw [assignNodes_eq]
  simp only [List.length_append, entriesSpec_length]

lemma length_filterMap_of_all_some {α β : Type} {F : α → Option β}
    {l : List α} (h : ∀ a ∈ l, (F a).isSome = true) :
    (l.filterMap F).length = l.length := by
  rw [length_filterMap_eq_countP]
  exact List.countP_eq_length.2 h

/-- Every edge of `edgesOf` arises from one day row with both endpoints
resolved in the node map. -/
lemma mem_edgesOf {entries : List NodeEntry} {L' : List LogonRecord}
    {D' : List DeviceRecord} {H' : List HttpRecord} {ed : GEdge}
    (hed : ed ∈ edgesOf entries L' D' H') :
    (∃ r ∈ L', ∃ eu ep : NodeEntry,
      dictLookup entries r.user = some eu ∧
      dictLookup entries r.pc = some ep ∧
      ed.src = eu.idx ∧ ed.tgt = ep.idx) ∨
    (∃ r ∈ D', ∃ eu ep : NodeEntry,
      dictLookup entries r.user = some eu ∧
      dictLookup entries r.pc = some ep ∧
      ed.src = eu.idx ∧ ed.tgt = ep.idx) ∨
    (∃ r ∈ H', ∃ eu ep : NodeEntry,
      dictLookup entries r.user = some eu ∧
      dictLookup entries r.domain = some ep ∧
      ed.src = eu.idx ∧ ed.tgt = ep.idx) := by
  unfold edgesOf at hed
  rcases List.mem_append.1 hed with h12 | h3
  · rcases List.mem_append.1 h12 with h1 | h2
    · left
      obtain ⟨r, hr, hf⟩ := List.mem_filterMap.1 h1
      cases h1u : dictLookup entries r.user with
      | none =>
          cases h1p : dictLookup entries r.pc <;>
            rw [h1u, h1p] at hf <;> exact Option.noConfusion hf
      | some eu =>
          cases h1p : dictLookup entries r.pc with
          | none => rw [h1u, h1p] at hf; exact Option.noConfusion hf
          | some ep =>
              simp only [h1u, h1p] at hf
              injection hf with h
              subst h
              exact ⟨r, hr, eu, ep, h1u, h1p, rfl, rfl⟩
    · right; left
      obtain ⟨r, hr, hf⟩ := List.mem_filterMap.1 h2
      cases h1u : dictLookup entries r.user with
      | none =>
          cases h1p : dictLookup entries r.pc <;>
            rw [h1u, h1p] at hf <;> exact Option.noConfusion hf
      | some eu =>
          cases h1p : dictLookup entries r.pc with
          | none => rw [h1u, h1p] at hf; exact Option.noConfusion hf
          | some ep =>
              simp only [h1u, h1p] at hf
              injection hf with h
              subst h
              exact ⟨r, hr, eu, ep, h1u, h1p, rfl, rfl⟩
  · right; right
    obtain ⟨r, hr, hf⟩ := List.mem_filterMap.1 h3
    cases h1u : dictLookup entries r.user with
    | none =>
        cases h1p : dictLookup entries r.domain <;>
          rw [h1u, h1p] at hf <;> exact Option.noConfusion hf
    | some eu =>
        cases h1p : dictLookup entries r.domain with
        | none => rw [h1u, h1p] at hf; exact Option.noConfusion hf
        | some ep =>
            simp only [h1u, h1p] at hf
            injection hf with h
            subst h
            exact ⟨r, hr, eu, ep, h1u, h1p, rfl, rfl⟩

/-- C7 counterexample: with a single logon row `(user "X", pc "X")` the two
node types share the external key `"X"`: the dict keeps only the PC's
index, the built graph has 2 nodes and 1 self-loop edge `(1, 1)`, and the
export reports `totalNodes = 1` and (because the `elif` never sets the
target name when both endpoint indices coincide) `totalEdges = 0`. -/
theorem viz_stats_counterexample :
    (buildGraph [⟨"X", "X", 0, 1, 1⟩] [] [] 0 []).isSome = true ∧
    (getGraphViz ((buildGraph [⟨"X", "X", 0, 1, 1⟩] [] [] 0 []).getD default)
        []).totalNodes = 1 ∧
    ((buildGraph [⟨"X", "X", 0, 1, 1⟩] [] [] 0 []).getD default).numNodes
      = 2 ∧
    (getGraphViz ((buildGraph [⟨"X", "X", 0, 1, 1⟩] [] [] 0 []).getD default)
        []).totalEdges = 0 ∧
    ((buildGraph [⟨"X", "X", 0, 1, 1⟩] [] [] 0 []).getD
        default).edges.length = 1 := by
  decide

/-- C7 amended: provided the selected day's external keys are pairwise
distinct across the three type groups and nonempty (Python-truthy), the
exported stats match the input graph exactly: `totalNodes` equals the
graph's node count and `totalEdges` equals its edge count. -/
theorem viz_stats_spec (L : List LogonRecord) (D : List DeviceRecord)
    (H : List HttpRecord) (day : Int) (mal : List String) (g : BuiltGraph)
    (hg : buildGraph L D H day mal = some g)
    (hnodup : (dayUsers L D H day ++ dayPcs L D day ++
      dayDomains H day).Nodup)
    (hne : "" ∉ dayUsers L D H day ++ dayPcs L D day ++ dayDomains H day) :
    (getGraphViz g mal).totalNodes = g.numNodes ∧
    (getGraphViz g mal).totalEdges = g.edges.length := by
  have hG := buildGraph_some_eq hg
  subst hG
  have hnames : (((assignNodes (dayUsers L D H day) (dayPcs L D day)
      (dayDomains H day)).1).map (·.name)).Nodup := by
    rw [assignNodes_map_name]; exact hnodup
  have hitems := dictItems_eq_self hnames
  have hinj : (((assignNodes (dayUsers L D H day) (dayPcs L D day)
      (dayDomains H day)).1).map (·.idx)).Nodup := by
    rw [assignNodes_map_idx]; exact List.nodup_range _
  have hupd : (dayUsers L D H day ++ dayPcs L D day).Nodup :=
    hnodup.of_append_left
  have hdisj_up : (dayUsers L D H day).Disjoint (dayPcs L D day) :=
    List.disjoint_of_nodup_append hupd
  have hdisj_upd :
      (dayUsers L D H day ++ dayPcs L D day).Disjoint (dayDomains H day) :=
    List.disjoint_of_nodup_append hnodup
  constructor
  · unfold getGraphViz vizNodes
    dsimp only
    rw [hitems, List.length_map]
    exact assignNodes_length _ _ _
  · unfold getGraphViz vizEdges
    dsimp only
    refine length_filterMap_of_all_some ?_
    intro ed hed
    rcases mem_edgesOf hed with
      ⟨r, hr, eu, ep, h1u, h1p, hsrc, htgt⟩ |
      ⟨r, hr, eu, ep, h1u, h1p, hsrc, htgt⟩ |
      ⟨r, hr, eu, ep, h1u, h1p, hsrc, htgt⟩
    · obtain ⟨heun, heum⟩ := dictLookup_name h1u
      obtain ⟨hepn, hepm⟩ := dictLookup_name h1p
      have hu_mem : r.user ∈ dayUsers L D H day := mem_dayUsers_logon hr D H
      have hp_mem : r.pc ∈ dayPcs L D day := mem_dayPcs_logon hr D
      have hru_ne : r.user ≠ "" := fun hc =>
        hne (List.mem_append_left _ (List.mem_append_left _ (hc ▸ hu_mem)))
      have hrp_ne : r.pc ≠ "" := fun hc =>
        hne (List.mem_append_left _ (List.mem_append_right _ (hc ▸ hp_mem)))
      have hst : ed.src ≠ ed.tgt := by
        rw [hsrc, htgt]
        intro hc
        have heq : eu = ep := List.inj_on_of_nodup_map hinj heum hepm hc
        have hup : r.user = r.pc := by rw [← heun, ← hepn, heq]
        exact hdisj_up (hup ▸ hu_mem) hp_mem
      rw [hitems,
        findEdgeNames_eq _ ed.src ed.tgt eu ep hst hinj heum hsrc.symm hepm
          htgt.symm]
      have h1 : (eu.name != "") = true := by
        rw [heun]; exact bne_iff_ne.2 hru_ne
      have h2 : (ep.name != "") = true := by
        rw [hepn]; exact bne_iff_ne.2 hrp_ne
      simp [h1, h2]
    · obtain ⟨heun, heum⟩ := dictLookup_name h1u
      obtain ⟨hepn, hepm⟩ := dictLookup_name h1p
      have hu_mem : r.user ∈ dayUsers L D H day := mem_dayUsers_device hr L H
      have hp_mem : r.pc ∈ dayPcs L D day := mem_dayPcs_device hr L
      have hru_ne : r.user ≠ "" := fun hc =>
        hne (List.mem_append_left _ (List.mem_append_left _ (hc ▸ hu_mem)))
      have hrp_ne : r.pc ≠ "" := fun hc =>
        hne (List.mem_append_left _ (List.mem_append_right _ (hc ▸ hp_mem)))
      have hst : ed.src ≠ ed.tgt := by
        rw [hsrc, htgt]
        intro hc
        have heq : eu = ep := List.inj_on_of_nodup_map hinj heum hepm hc
        have hup : r.user = r.pc := by rw [← heun, ← hepn, heq]
        exact hdisj_up (hup ▸ hu_mem) hp_mem
      rw [hitems,
        findEdgeNames_eq _ ed.src ed.tgt eu ep hst hinj heum hsrc.symm hepm
          htgt.symm]
      have h1 : (eu.name != "") = true := by
        rw [heun]; exact bne_iff_ne.2 hru_ne
      have h2 : (ep.name != "") = true := by
        rw [hepn]; exact bne_iff_ne.2 hrp_ne
      simp [h1, h2]
    · obtain ⟨heun, heum⟩ := dictLookup_name h1u
      obtain ⟨hepn, hepm⟩ := dictLookup_name h1p
      have hu_mem : r.user ∈ dayUsers L D H day := mem_dayUsers_http hr L D
      have hd_mem : r.domain ∈ dayDomains H day := mem_dayDomains hr
      have hru_ne : r.user ≠ "" := fun hc =>
        hne (List.mem_append_left _ (List.mem_append_left _ (hc ▸ hu_mem)))
      have hrd_ne : r.domain ≠ "" := fun hc =>
        hne (List.mem_append_right _ (hc ▸ hd_mem))
      have hst : ed.src ≠ ed.tgt := by
        rw [hsrc, htgt]
        intro hc
        have heq : eu = ep := List.inj_on_of_nodup_map hinj heum hepm hc
        have hup : r.user = r.domain := by rw [← heun, ← hepn, heq]
        exact hdisj_upd (List.mem_append_left _ (hup ▸ hu_mem)) hd_mem
      rw [hitems,
        findEdgeNames_eq _ ed.src ed.tgt eu ep hst hinj heum hsrc.symm hepm
          htgt.symm]
      have h1 : (eu.name != "") = true := by
        rw [heun]; exact bne_iff_ne.2 hru_ne
      have h2 : (ep.name != "") = true := by
        rw [hepn]; exact bne_iff_ne.2 hrd_ne
      simp [h1, h2]

/-- Witness: the C7 amended specification evaluated on a concrete graph
whose four external keys are distinct and nonempty. -/
theorem viz_stats_spec_witness :
    (getGraphViz ((buildGraph [⟨"A", "P1", 0, 1, 1⟩] [] [⟨"B", "d1", 0, 2⟩]
        0 []).getD default) []).totalNodes =
      ((buildGraph [⟨"A", "P1", 0, 1, 1⟩] [] [⟨"B", "d1", 0, 2⟩] 0 []).getD
        default).numNodes ∧
    (getGraphViz ((buildGraph [⟨"A", "P1", 0, 1, 1⟩] [] [⟨"B", "d1", 0, 2⟩]
        0 []).getD default) []).totalEdges =
      ((buildGraph [⟨"A", "P1", 0, 1, 1⟩] [] [⟨"B", "d1", 0, 2⟩] 0 []).getD
        default).edges.length :=
  viz_stats_spec [⟨"A", "P1", 0, 1, 1⟩] [] [⟨"B", "d1", 0, 2⟩] 0 []
    ((buildGraph [⟨"A", "P1", 0, 1, 1⟩] [] [⟨"B", "d1", 0, 2⟩] 0 []).getD
      default) rfl (by decide) (by decide)

lemma closerStep_foldl_mem (t : Int) (l : List Int) :
    ∀ b, l.foldl (closerStep t) b ∈ b :: l := by
  induction l with
  | nil => intro b; exact List.mem_singleton.2 rfl
  | cons y l ih =>
      intro b
      simp only [List.foldl_cons]
      rcases List.mem_cons.1 (ih (closerStep t b y)) with h1 | h1
      · by_cases hc : dayDist t y < dayDist t b
        · have hacc : closerStep t b y = y := if_pos hc
          rw [hacc] at h1 ⊢
          rw [h1]
          exact List.mem_cons_of_mem _ (List.mem_cons_self _ _)
        · have hacc : closerStep t b y = b := if_neg hc
          rw [hacc] at h1 ⊢
          rw [h1]
          exact List.mem_cons_self _ _
      · exact List.mem_cons_of_mem _ (List.mem_cons_of_mem _ h1)

lemma closerStep_foldl_le (t : Int) (l : List Int) :
    ∀ b, ∀ x ∈ b :: l,
      dayDist t (l.foldl (closerStep t) b) ≤ dayDist t x := by
  induction l with
  | nil =>
      intro b x hx
      rw [List.mem_singleton.1 hx]
      exact le_refl (dayDist t b)
  | cons y l ih =>
      intro b x hx
      simp only [List.foldl_cons]
      have hstep_le_b : dayDist t (closerStep t b y) ≤ dayDist t b := by
        by_cases hc : dayDist t y < dayDist t b
        · have hacc : closerStep t b y = y := if_pos hc
          rw [hacc]; omega
        · have hacc : closerStep t b y = b := if_neg hc
          rw [hacc]
      have hstep_le_y : dayDist t (closerStep t b y) ≤ dayDist t y := by
        by_cases hc : dayDist t y < dayDist t b
        · have hacc : closerStep t b y = y := if_pos hc
          rw [hacc]
        · have hacc : closerStep t b y = b := if_neg hc
          rw [hacc]; omega
      rcases List.mem_cons.1 hx with hxb | hx'
      · rw [hxb]
        exact le_trans
          (ih (closerStep t b y) (closerStep t b y) (List.mem_cons_self _ _))
          hstep_le_b
      · rcases List.mem_cons.1 hx' with hxy | hx''
        · rw [hxy]
          exact le_trans
            (ih (closerStep t b y) (closerStep t b y)
              (List.mem_cons_self _ _))
            hstep_le_y
        · exact ih (closerStep t b y) x (List.mem_cons_of_mem _ hx'')

lemma closerStep_foldl_tie (t : Int) (l : List Int) :
    ∀ b, (b :: l).Sorted (· ≤ ·) →
      ∀ x ∈ b :: l,
        dayDist t x = dayDist t (l.foldl (closerStep t) b) →
        l.foldl (closerStep t) b ≤ x := by
  induction l with
  | nil =>
      intro b _ x hx _
      rw [List.mem_singleton.1 hx]
      exact le_refl b
  | cons y l ih =>
      intro b hsort x hx hdx
      have hpair := List.sorted_cons.1 hsort
      have hby : b ≤ y := hpair.1 y (List.mem_cons_self _ _)
      have hsort_tail : (y :: l).Sorted (· ≤ ·) := hpair.2
      have hyl : ∀ z ∈ l, y ≤ z := (List.sorted_cons.1 hsort_tail).1
      simp only [List.foldl_cons] at hdx ⊢
      by_cases hc : dayDist t y < dayDist t b
      · have hacc : closerStep t b y = y := if_pos hc
        rw [hacc] at hdx ⊢
        rcases List.mem_cons.1 hx with hxb | hx'
        · exfalso
          have hrle := closerStep_foldl_le t l y y (List.mem_cons_self _ _)
          rw [hxb] at hdx
          omega
        · exact ih y hsort_tail x hx' hdx
      · have hacc : closerStep t b y = b := if_neg hc
        rw [hacc] at hdx ⊢
        have hsort_bl : (b :: l).Sorted (· ≤ ·) := by
          rw [List.sorted_cons]
          exact ⟨fun z hz => le_trans hby (hyl z hz),
            (List.sorted_cons.1 hsort_tail).2⟩
        rcases List.mem_cons.1 hx with hxb | hx'
        · rw [hxb] at hdx ⊢
          exact ih b hsort_bl b (List.mem_cons_self _ _) hdx
        · rcases List.mem_cons.1 hx' with hxy | hx''
          · rw [hxy] at hdx ⊢
            have hrle := closerStep_foldl_le t l b b (List.mem_cons_self _ _)
            have hdb : dayDist t b =
                dayDist t (l.foldl (closerStep t) b) := by omega
            exact le_trans (ih b hsort_bl b (List.mem_cons_self _ _) hdb) hby
          · exact ih b hsort_bl x (List.mem_cons_of_mem _ hx'') hdx

/-- C1: for every nonempty `availableDays`, the day selector returns a
member of `availableDays`; it returns the minimum of
`availableDays ∩ maliciousDays` when that intersection is nonempty; when
the intersection is empty but `maliciousDays` is not, it returns the
available day of least absolute day-distance to the earliest malicious
day, ties broken by the earliest candidate day; and with no malicious days
it returns `max(availableDays)`. -/
theorem daySelector_spec (A M : Finset Int) (hA : A.Nonempty) :
    (∃ d, selectDay A M = some d ∧ d ∈ A) ∧
    (∀ hi : (A ∩ M).Nonempty, selectDay A M = some ((A ∩ M).min' hi)) ∧
    (∀ hm : M.Nonempty, A ∩ M = ∅ →
      ∃ d, selectDay A M = some d ∧ d ∈ A ∧
        (∀ x ∈ A, dayDist (M.min' hm) d ≤ dayDist (M.min' hm) x) ∧
        (∀ x ∈ A, dayDist (M.min' hm) x = dayDist (M.min' hm) d → d ≤ x)) ∧
    (M = ∅ → selectDay A M = some (A.max' hA)) := by
  by_cases hM : M.Nonempty
  · by_cases hI : (A ∩ M).Nonempty
    · have hsel : selectDay A M = some ((A ∩ M).min' hI) := by
        unfold selectDay
        rw [dif_pos hM, dif_pos hI]
      refine ⟨⟨(A ∩ M).min' hI, hsel,
          Finset.mem_of_mem_inter_left ((A ∩ M).min'_mem hI)⟩,
        fun hi => hsel, ?_, ?_⟩
      · intro hm hempty
        rw [hempty] at hI
        exact absurd hI (by simp)
      · intro hMe
        rw [hMe] at hM
        exact absurd hM (by simp)
    · obtain ⟨a, haA⟩ := hA
      have hAs : A.sort (· ≤ ·) ≠ [] :=
        List.ne_nil_of_mem ((Finset.mem_sort (· ≤ ·)).2 haA)
      obtain ⟨b, l, hbl⟩ := List.exists_cons_of_ne_nil hAs
      have hANon : A.Nonempty := ⟨a, haA⟩
      have hsel : selectDay A M =
          some (l.foldl (closerStep (M.min' hM)) b) := by
        unfold selectDay
        rw [dif_pos hM, dif_neg hI, if_pos hANon, hbl]
        rfl
      have hmem : l.foldl (closerStep (M.min' hM)) b ∈ b :: l :=
        closerStep_foldl_mem (M.min' hM) l b
      have hmemA : l.foldl (closerStep (M.min' hM)) b ∈ A :=
        (Finset.mem_sort (· ≤ ·)).1 (hbl.symm ▸ hmem)
      have hsorted : (b :: l).Sorted (· ≤ ·) :=
        hbl ▸ Finset.sort_sorted (· ≤ ·) A
      refine ⟨⟨_, hsel, hmemA⟩, fun hi => absurd hi hI, ?_, ?_⟩
      · intro hm hempty
        refine ⟨_, hsel, hmemA, ?_, ?_⟩
        · intro x hx
          exact closerStep_foldl_le (M.min' hM) l b x
            (hbl ▸ (Finset.mem_sort (· ≤ ·)).2 hx)
        · intro x hx hdx
          exact closerStep_foldl_tie (M.min' hM) l b hsorted x
            (hbl ▸ (Finset.mem_sort (· ≤ ·)).2 hx) hdx
      · intro hMe
        rw [hMe] at hM
        exact absurd hM (by simp)
  · have hsel : selectDay A M = some (A.max' hA) := by
      unfold selectDay
      rw [dif_neg hM, dif_pos hA]
    refine ⟨⟨_, hsel, A.max'_mem hA⟩, ?_, ?_, fun _ => hsel⟩
    · intro hi
      obtain ⟨x, hx⟩ := hi
      exact absurd ⟨x, (Finset.mem_inter.1 hx).2⟩ hM
    · intro hm
      exact absurd hm hM

/-- Witness: the day selector on `availableDays = {1, 3, 7}` and
`maliciousDays = {5}` — the intersection is empty, `|3-5| = |7-5| = 2`, and
the tie is broken towards the earlier day 3. -/
theorem daySelector_spec_witness :
    (∃ d, selectDay {1, 3, 7} {5} = some d ∧ d ∈ ({1, 3, 7} : Finset Int)) ∧
    (∀ hi : (({1, 3, 7} : Finset Int) ∩ {5}).Nonempty,
      selectDay {1, 3, 7} {5} =
        some ((({1, 3, 7} : Finset Int) ∩ {5}).min' hi)) ∧
    (∀ hm : ({5} : Finset Int).Nonempty,
      ({1, 3, 7} : Finset Int) ∩ {5} = ∅ →
      ∃ d, selectDay {1, 3, 7} {5} = some d ∧
        d ∈ ({1, 3, 7} : Finset Int) ∧
        (∀ x ∈ ({1, 3, 7} : Finset Int),
          dayDist (({5} : Finset Int).min' hm) d ≤
            dayDist (({5} : Finset Int).min' hm) x) ∧
        (∀ x ∈ ({1, 3, 7} : Finset Int),
          dayDist (({5} : Finset Int).min' hm) x =
            dayDist (({5} : Finset Int).min' hm) d → d ≤ x)) ∧
    (({5} : Finset Int) = ∅ →
      selectDay {1, 3, 7} {5} =
        some (({1, 3, 7} : Finset Int).max' ⟨1, by decide⟩)) :=
  daySelector_spec {1, 3, 7} {5} ⟨1, by decide⟩
